import Mathlib

/-!
# Unscented Kalman filter (`src/src/ukf.cpp`): embedding and verified properties

The C++ class `UKF` is embedded as a record of its member variables together with
pure functions that take the record before a call and return the record after it.
`double` arithmetic is read as exact arithmetic in a linearly ordered field `α`
(the theorems about trigonometry and square roots take `α = ℝ`); the C math
library (`sqrt`, `sin`, `cos`, `M_PI`) is a parameter of the embedding, so that every
definition stays executable (for instance over `ℚ`).
-/

open Matrix

namespace UKFilter

/-! ## Data model -/

/-- The C math library used by `ukf.cpp`: `sqrt`, `sin`, `cos` and the constant `M_PI`
(a positive constant). -/
structure MathEnv (α : Type) [LinearOrderedField α] where
  sqrt : α → α
  sin : α → α
  cos : α → α
  M_PI : α
  M_PI_pos : 0 < M_PI

/-- The environment is the real one: `sqrt`, `sin`, `cos` and `M_PI` are the real
square root, sine, cosine and `π`. -/
def MathEnv.IsReal (M : MathEnv ℝ) : Prop :=
  M.sqrt = Real.sqrt ∧ M.sin = Real.sin ∧ M.cos = Real.cos ∧ M.M_PI = Real.pi

/-- State dimension (`n_x_ = 5`, ukf.cpp line 63). -/
abbrev n_x : ℕ := 5

/-- Augmented state dimension (`n_aug_ = 7`, ukf.cpp line 66). -/
abbrev n_aug : ℕ := 7

/-- Number of sigma points, `2 * n_aug_ + 1`. -/
abbrev n_sig : ℕ := 2 * n_aug + 1

/-- Modelled from the spec: `measurement_package.h` is not under src/. A measurement
package carries a timestamp in microseconds, a sensor type and the raw measurement
vector: two scalars (position-x, position-y) for `LASER`, three scalars
(range, bearing, range-rate) for `RADAR`. -/
inductive MeasurementPackage (α : Type) where
  | LASER (timestamp_ : ℤ) (raw_measurements_ : Fin 2 → α)
  | RADAR (timestamp_ : ℤ) (raw_measurements_ : Fin 3 → α)

/-- The field `timestamp_` of a measurement package. -/
def MeasurementPackage.timestamp_ {α : Type} : MeasurementPackage α → ℤ
  | .LASER t _ => t
  | .RADAR t _ => t

/-- Modelled from the spec: `ukf.h` is not under src/. The member variables of the
class `UKF` that `ukf.cpp` reads and writes. The dimensions `n_x_ = 5` and
`n_aug_ = 7` are fixed by the constructor and never written again, so they are the
constants `n_x` and `n_aug`. -/
structure UKF (α : Type) where
  is_initialized_ : Bool
  use_laser_ : Bool
  use_radar_ : Bool
  x_ : Fin n_x → α
  P_ : Matrix (Fin n_x) (Fin n_x) α
  Xsig_pred_ : Matrix (Fin n_x) (Fin n_sig) α
  time_us_ : ℤ
  std_a_ : α
  std_yawdd_ : α
  std_laspx_ : α
  std_laspy_ : α
  std_radr_ : α
  std_radphi_ : α
  std_radrd_ : α
  weights_ : Fin n_sig → α
  lambda_ : α

variable {α : Type} [LinearOrderedField α]

/-! ## Constructor (ukf.cpp lines 10-81) -/

/-- The weight vector built at lines 78-80 for an augmented dimension `n` and a
spreading parameter `lambda`: `weights_.fill(0.5 / (lambda_ + n_aug_))` followed by
`weights_(0) = lambda_ / (lambda_ + n_aug_)`. The literal `0.5` is `1 / 2`. -/
def mkWeights (n : ℕ) (lambda : α) : Fin (2 * n + 1) → α :=
  Function.update (fun _ => (1 / 2) / (lambda + (n : α))) 0 (lambda / (lambda + (n : α)))

/-- The constructor `UKF::UKF()`. `VectorXd(5)` and `MatrixXd(5, 5)` allocate without
initializing, so the initial contents `x0`, `P0`, `X0` of `x_`, `P_` and `Xsig_pred_`
are arbitrary. Decimal literals are written as fractions (`.3` is `3 / 10`). -/
def new (x0 : Fin n_x → α) (P0 : Matrix (Fin n_x) (Fin n_x) α)
    (X0 : Matrix (Fin n_x) (Fin n_sig) α) : UKF α where
  use_laser_ := true
  use_radar_ := true
  x_ := x0
  P_ := P0
  std_a_ := 3 / 10
  std_yawdd_ := 3 / 10
  std_laspx_ := 15 / 100
  std_laspy_ := 15 / 100
  std_radr_ := 3 / 10
  std_radphi_ := 3 / 100
  std_radrd_ := 3 / 10
  is_initialized_ := false
  lambda_ := 3 - (n_aug : α)
  Xsig_pred_ := X0
  time_us_ := 0
  weights_ := mkWeights n_aug (3 - (n_aug : α))

/-! ## Angle normalization (ukf.cpp lines 225-228) -/

/-- The loop `while (d > M_PI) d -= 2. * M_PI;`. -/
def subLoop [FloorRing α] (M : MathEnv α) (d : α) : α :=
  if d > M.M_PI then subLoop M (d - 2 * M.M_PI) else d
termination_by ⌈(d - M.M_PI) / (2 * M.M_PI)⌉.toNat
decreasing_by
  rename_i h
  have hpi := M.M_PI_pos
  have h2 : (0 : α) < 2 * M.M_PI := by linarith
  have e : (d - 2 * M.M_PI - M.M_PI) / (2 * M.M_PI) = (d - M.M_PI) / (2 * M.M_PI) - 1 := by
    field_simp
    ring
  have hpos : 0 < ⌈(d - M.M_PI) / (2 * M.M_PI)⌉ :=
    Int.ceil_pos.mpr (div_pos (by linarith) h2)
  rw [e, Int.ceil_sub_one]
  omega

/-- The loop `while (d < -M_PI) d += 2. * M_PI;`. -/
def addLoop [FloorRing α] (M : MathEnv α) (d : α) : α :=
  if d < -M.M_PI then addLoop M (d + 2 * M.M_PI) else d
termination_by ⌈(-M.M_PI - d) / (2 * M.M_PI)⌉.toNat
decreasing_by
  rename_i h
  have hpi := M.M_PI_pos
  have h2 : (0 : α) < 2 * M.M_PI := by linarith
  have e : (-M.M_PI - (d + 2 * M.M_PI)) / (2 * M.M_PI) = (-M.M_PI - d) / (2 * M.M_PI) - 1 := by
    field_simp
    ring
  have hpos : 0 < ⌈(-M.M_PI - d) / (2 * M.M_PI)⌉ :=
    Int.ceil_pos.mpr (div_pos (by linarith) h2)
  rw [e, Int.ceil_sub_one]
  omega

/-- The angle normalization of lines 225-228: the two loops, one after the other. -/
def normalizeAngle [FloorRing α] (M : MathEnv α) (d : α) : α :=
  addLoop M (subLoop M d)

/-- The loop `while (d > M_PI) d -= 2. * M_PI;` run for at most `fuel` iterations:
`some` of the value it leaves when it ends within `fuel` iterations, `none` when the
condition still holds after them. -/
def subLoopFuel (M : MathEnv α) : ℕ → α → Option α
  | 0, d => if d > M.M_PI then none else some d
  | fuel + 1, d => if d > M.M_PI then subLoopFuel M fuel (d - 2 * M.M_PI) else some d

/-- The loop `while (d < -M_PI) d += 2. * M_PI;` run for at most `fuel` iterations. -/
def addLoopFuel (M : MathEnv α) : ℕ → α → Option α
  | 0, d => if d < -M.M_PI then none else some d
  | fuel + 1, d => if d < -M.M_PI then addLoopFuel M fuel (d + 2 * M.M_PI) else some d

/-! ## Cholesky factorization `P_aug.llt().matrixL()` (ukf.cpp line 154) -/

/-- Modelled from the spec: `P_aug.llt()` is the linear-algebra library's Cholesky
factorization ("computes a matrix square root via Cholesky factorization of the augmented
covariance"), which is not under src/. One step `k` of the library's in-place unblocked
algorithm: `x = mat(k,k) - |row k left of the diagonal|^2`; when `x ≤ 0` the routine
stops (`none`); otherwise `mat(k,k) = sqrt x` and every entry below it in column `k`
becomes `(mat(i,k) - row i · row k) / sqrt x`, the dot product taken left of column `k`. -/
def lltStep (M : MathEnv α) (mat : Matrix (Fin n_aug) (Fin n_aug) α) (k : Fin n_aug) :
    Option (Matrix (Fin n_aug) (Fin n_aug) α) :=
  let x := mat k k - ∑ c : Fin n_aug, if c < k then mat k c * mat k c else 0
  if x ≤ 0 then none
  else
    some (fun i j =>
      if j = k then
        if i = k then M.sqrt x
        else if k < i then
          (mat i k - ∑ c : Fin n_aug, if c < k then mat i c * mat k c else 0) / M.sqrt x
        else mat i j
      else mat i j)

/-- Modelled from the spec: the loop of the library's unblocked factorization over the
columns `ks`; it returns at the first column whose step fails, leaving the matrix as
it is at that point. -/
def lltLoop (M : MathEnv α) :
    List (Fin n_aug) → Matrix (Fin n_aug) (Fin n_aug) α → Matrix (Fin n_aug) (Fin n_aug) α
  | [], mat => mat
  | k :: ks, mat =>
    match lltStep M mat k with
    | none => mat
    | some mat1 => lltLoop M ks mat1

/-- Modelled from the spec: `A.llt().matrixL()`, the lower-triangular view of the
matrix left by the in-place factorization of a copy of `A`. The code never inspects
the factorization's status, so the result is used whether or not it succeeded. -/
def llt (M : MathEnv α) (A : Matrix (Fin n_aug) (Fin n_aug) α) :
    Matrix (Fin n_aug) (Fin n_aug) α :=
  fun i j => if j ≤ i then lltLoop M (List.finRange n_aug) A i j else 0

/-! ## Prediction (ukf.cpp lines 130-232) -/

/-- Lines 143-145: `x_aug.head(5) = x_; x_aug(5) = 0; x_aug(6) = 0`. -/
def augmentedMean (s : UKF α) : Fin n_aug → α :=
  fun i => if h : i.val < n_x then s.x_ ⟨i.val, h⟩ else 0

/-- Lines 148-151: `P_aug` is zero except for `P_` in the top-left corner,
`std_a_ * std_a_` at `(5, 5)` and `std_yawdd_ * std_yawdd_` at `(6, 6)`. -/
def augmentedCovariance (s : UKF α) : Matrix (Fin n_aug) (Fin n_aug) α :=
  fun i j =>
    if h : i.val < n_x ∧ j.val < n_x then s.P_ ⟨i.val, h.1⟩ ⟨j.val, h.2⟩
    else if i.val = 5 ∧ j.val = 5 then s.std_a_ * s.std_a_
    else if i.val = 6 ∧ j.val = 6 then s.std_yawdd_ * s.std_yawdd_
    else 0

/-- The column `i` of `L` that sigma column `c` is built from in the loop of lines
158-162: `c = i + 1` or `c = i + 1 + n_aug_` with `0 ≤ i < n_aug_`. -/
def sigmaIndex (c : Fin n_sig) : Fin n_aug :=
  ⟨(c.val - 1) % n_aug, Nat.mod_lt _ (by decide)⟩

/-- Lines 157-162: column 0 is `x_aug`, column `i + 1` is
`x_aug + sqrt(lambda_ + n_aug_) * L.col(i)` and column `i + 1 + n_aug_` is
`x_aug - sqrt(lambda_ + n_aug_) * L.col(i)`, for `i = 0..n_aug_ - 1`. -/
def augmentedSigmaPoints (M : MathEnv α) (s : UKF α)
    (L : Matrix (Fin n_aug) (Fin n_aug) α) : Matrix (Fin n_aug) (Fin n_sig) α :=
  fun r c =>
    if c.val = 0 then augmentedMean s r
    else if c.val ≤ n_aug then
      augmentedMean s r + M.sqrt (s.lambda_ + (n_aug : α)) * L r (sigmaIndex c)
    else
      augmentedMean s r - M.sqrt (s.lambda_ + (n_aug : α)) * L r (sigmaIndex c)

/-- Lines 182-183, the branch `fabs(yawd) > 0.001`: the position `(px_p, py_p)` after
moving along the circular arc, before the noise terms are added. -/
def curvedPath (M : MathEnv α) (p_x p_y v yaw yawd delta_t : α) : α × α :=
  (p_x + v / yawd * (M.sin (yaw + yawd * delta_t) - M.sin yaw),
   p_y + v / yawd * (M.cos yaw - M.cos (yaw + yawd * delta_t)))

/-- Lines 187-188, the other branch: the position `(px_p, py_p)` after moving along the
straight line, before the noise terms are added. -/
def straightPath (M : MathEnv α) (p_x p_y v yaw delta_t : α) : α × α :=
  (p_x + v * delta_t * M.cos yaw, p_y + v * delta_t * M.sin yaw)

/-- The body of the loop of lines 165-209 for one augmented sigma column `c`: the
constant-turn-rate-and-velocity model with the noise terms added. The literals
`0.001` and `0.5` are `1 / 1000` and `1 / 2`. -/
def predictSigmaPoint (M : MathEnv α) (delta_t : α) (c : Fin n_aug → α) : Fin n_x → α :=
  let p_x := c 0
  let p_y := c 1
  let v := c 2
  let yaw := c 3
  let yawd := c 4
  let nu_a := c 5
  let nu_yawdd := c 6
  let px_p :=
    if |yawd| > 1 / 1000 then p_x + v / yawd * (M.sin (yaw + yawd * delta_t) - M.sin yaw)
    else p_x + v * delta_t * M.cos yaw
  let py_p :=
    if |yawd| > 1 / 1000 then p_y + v / yawd * (M.cos yaw - M.cos (yaw + yawd * delta_t))
    else p_y + v * delta_t * M.sin yaw
  let v_p := v
  let yaw_p := yaw + yawd * delta_t
  let yawd_p := yawd
  let px_p := px_p + 1 / 2 * nu_a * delta_t * delta_t * M.cos yaw
  let py_p := py_p + 1 / 2 * nu_a * delta_t * delta_t * M.sin yaw
  let v_p := v_p + nu_a * delta_t
  let yaw_p := yaw_p + 1 / 2 * nu_yawdd * delta_t * delta_t
  let yawd_p := yawd_p + nu_yawdd * delta_t
  ![px_p, py_p, v_p, yaw_p, yawd_p]

/-- Lines 165-209: every column of `Xsig_pred_` is the propagated augmented column. -/
def predictSigmaPoints (M : MathEnv α) (delta_t : α)
    (Xsig_aug : Matrix (Fin n_aug) (Fin n_sig) α) : Matrix (Fin n_x) (Fin n_sig) α :=
  fun r i => predictSigmaPoint M delta_t (fun k => Xsig_aug k i) r

/-- Lines 212-216: the accumulation `x_ = x_ + weights_(i) * Xsig_pred_.col(i)` from
zero over all columns. -/
def predictedMean (w : Fin n_sig → α) (X : Matrix (Fin n_x) (Fin n_sig) α) : Fin n_x → α :=
  fun r => ∑ i : Fin n_sig, w i * X r i

/-- Lines 223-228: `x_diff = Xsig_pred_.col(i) - x_` with its component 3 normalized. -/
def stateDiff [FloorRing α] (M : MathEnv α) (X : Matrix (Fin n_x) (Fin n_sig) α)
    (x : Fin n_x → α) (i : Fin n_sig) : Fin n_x → α :=
  Function.update (fun r => X r i - x r) 3 (normalizeAngle M (X 3 i - x 3))

/-- Lines 219-231: the accumulation `P_ = P_ + weights_(i) * x_diff * x_diff.transpose()`
from zero over all columns. -/
def predictedCovariance [FloorRing α] (M : MathEnv α) (w : Fin n_sig → α)
    (X : Matrix (Fin n_x) (Fin n_sig) α) (x : Fin n_x → α) :
    Matrix (Fin n_x) (Fin n_x) α :=
  ∑ i : Fin n_sig, vecMulVec (w i • stateDiff M X x i) (stateDiff M X x i)

/-- The method `UKF::Prediction(double delta_t)`. -/
def Prediction [FloorRing α] (M : MathEnv α) (delta_t : α) (s : UKF α) : UKF α :=
  let L := llt M (augmentedCovariance s)
  let Xsig_aug := augmentedSigmaPoints M s L
  let Xsig_pred := predictSigmaPoints M delta_t Xsig_aug
  let x := predictedMean s.weights_ Xsig_pred
  let P := predictedCovariance M s.weights_ Xsig_pred x
  { s with Xsig_pred_ := Xsig_pred, x_ := x, P_ := P }

/-! ## Measurement updates (ukf.cpp lines 235-272) -/

/-- Modelled from the spec: `S.inverse()` is the linear-algebra library's inverse, not
under src/; on a 2×2 matrix it is the adjugate divided by the determinant. -/
def inverse2 (S : Matrix (Fin 2) (Fin 2) α) : Matrix (Fin 2) (Fin 2) α :=
  (S 0 0 * S 1 1 - S 0 1 * S 1 0)⁻¹ • !![S 1 1, -S 0 1; -S 1 0, S 0 0]

/-- The measurement matrix `H` of lines 243-245. -/
def lidarH : Matrix (Fin 2) (Fin n_x) α :=
  !![1, 0, 0, 0, 0; 0, 1, 0, 0, 0]

/-- The measurement covariance `R` of lines 249-251. -/
def lidarR (s : UKF α) : Matrix (Fin 2) (Fin 2) α :=
  !![s.std_laspx_ * s.std_laspx_, 0; 0, s.std_laspy_ * s.std_laspy_]

/-- The method `UKF::UpdateLidar`, on the raw measurement vector `z` of the package
(`meas_package.raw_measurements_`, two scalars). -/
def UpdateLidar (s : UKF α) (z : Fin 2 → α) : UKF α :=
  let H : Matrix (Fin 2) (Fin n_x) α := lidarH
  let Ht := H.transpose
  let R := lidarR s
  let y := z - H.mulVec s.x_
  let S := H * s.P_ * Ht + R
  let K := s.P_ * Ht * inverse2 S
  { s with x_ := s.x_ + K.mulVec y, P_ := (1 - K * H) * s.P_ }

/-- The method `UKF::UpdateRadar`: its body (lines 265-272) is empty. -/
def UpdateRadar (s : UKF α) (_z : Fin 3 → α) : UKF α := s

/-! ## ProcessMeasurement (ukf.cpp lines 85-127) -/

/-- Line 92: `(meas_package.timestamp_ - time_us_) / 1000000.0`; the timestamps are
integers (the subtraction is assumed not to overflow). -/
def elapsed (s : UKF α) (m : MeasurementPackage α) : α :=
  ((m.timestamp_ - s.time_us_ : ℤ) : α) / 1000000

/-- The method `UKF::ProcessMeasurement`. It returns `void`, and neither it nor the
methods it calls contain a `throw`, an assertion or a status value, so a call maps the
estimator before it to the estimator after it. -/
def ProcessMeasurement [FloorRing α] (M : MathEnv α) (s : UKF α)
    (m : MeasurementPackage α) : UKF α :=
  let delta_t := elapsed s m
  let s := { s with time_us_ := m.timestamp_ }
  if !s.is_initialized_ then
    match m with
    | .LASER _ z =>
      { s with
        x_ := ![z 0, z 1, 0, 0, 0]
        P_ := !![s.std_laspx_ * s.std_laspx_, 0, 0, 0, 0;
                 0, s.std_laspy_ * s.std_laspy_, 0, 0, 0;
                 0, 0, 1, 0, 0;
                 0, 0, 0, 1, 0;
                 0, 0, 0, 0, 1]
        is_initialized_ := true }
    | .RADAR _ z =>
      let range := z 0
      let angle := z 1
      let velocity := z 2
      { s with
        x_ := ![range * M.cos angle, range * M.sin angle, velocity, angle, angle]
        P_ := !![s.std_radr_ * s.std_radr_, 0, 0, 0, 0;
                 0, s.std_radr_ * s.std_radr_, 0, 0, 0;
                 0, 0, s.std_radrd_ * s.std_radrd_, 0, 0;
                 0, 0, 0, s.std_radphi_ * s.std_radphi_, 0;
                 0, 0, 0, 0, s.std_radphi_ * s.std_radphi_]
        is_initialized_ := true }
  else
    let s := Prediction M delta_t s
    match m with
    | .LASER _ z => UpdateLidar s z
    | .RADAR _ z => UpdateRadar s z

/-- The estimator after a sequence of calls of `ProcessMeasurement`, one for each
measurement of the list, in order. -/
def run [FloorRing α] (M : MathEnv α) (s : UKF α) (ms : List (MeasurementPackage α)) :
    UKF α :=
  ms.foldl (ProcessMeasurement M) s

/-- Block matrix `[[A, 0, 0], [0, a, 0], [0, 0, y]]` of size 7: the shape of the augmented
covariance `P_aug` (`topLeftCorner(5,5) = P_`, `(5,5) = a`, `(6,6) = y`). -/
def augBlock (A : Matrix (Fin n_x) (Fin n_x) α) (a y : α) : Matrix (Fin n_aug) (Fin n_aug) α :=
  fun i j =>
    if h : i.val < n_x ∧ j.val < n_x then A ⟨i.val, h.1⟩ ⟨j.val, h.2⟩
    else if i.val = 5 ∧ j.val = 5 then a
    else if i.val = 6 ∧ j.val = 6 then y
    else 0

/-! ## Helper lemmas -/

/-! ### Vectors, matrices and weights -/

lemma diag5_eq (a b c d e : α) :
    !![a, 0, 0, 0, 0; 0, b, 0, 0, 0; 0, 0, c, 0, 0; 0, 0, 0, d, 0; 0, 0, 0, 0, e] =
      Matrix.diagonal ![a, b, c, d, e] := by
  ext i j
  fin_cases i <;> fin_cases j <;> rfl

lemma vec6_five {β : Type} (a b c d e f : β) : ![a, b, c, d, e, f] 5 = f := rfl

lemma vec7_five {β : Type} (a b c d e f g : β) : ![a, b, c, d, e, f, g] 5 = f := rfl

lemma vec7_six {β : Type} (a b c d e f g : β) : ![a, b, c, d, e, f, g] 6 = g := rfl

lemma sum_fin15 {β : Type} [AddCommMonoid β] (f : Fin n_sig → β) :
    ∑ i, f i = f 0 + (f 1 + (f 2 + (f 3 + (f 4 + (f 5 + (f 6 + (f 7 + (f 8 + (f 9 +
      (f 10 + (f 11 + (f 12 + (f 13 + f 14))))))))))))) := by
  show ∑ i : Fin 15, f i = _
  simp only [Fin.sum_univ_succ, Fin.sum_univ_zero, add_zero]
  rfl

lemma mkWeights_zero (n : ℕ) (l : α) : mkWeights n l 0 = l / (l + n) := by
  simp [mkWeights]

lemma mkWeights_ne_zero (n : ℕ) (l : α) (i : Fin (2 * n + 1)) (hi : i ≠ 0) :
    mkWeights n l i = (1 / 2) / (l + n) := by
  simp [mkWeights, Function.update_noteq hi]

/-! ### ProcessMeasurement: the two branches -/

lemma processMeasurement_uninit_laser [FloorRing α] (M : MathEnv α) (s : UKF α) (t : ℤ)
    (z : Fin 2 → α) (h : s.is_initialized_ = false) :
    ProcessMeasurement M s (.LASER t z) =
      { s with
        time_us_ := t
        x_ := ![z 0, z 1, 0, 0, 0]
        P_ := Matrix.diagonal ![s.std_laspx_ ^ 2, s.std_laspy_ ^ 2, 1, 1, 1]
        is_initialized_ := true } := by
  simp only [ProcessMeasurement, h, MeasurementPackage.timestamp_, diag5_eq, pow_two]
  rfl

lemma processMeasurement_uninit_radar [FloorRing α] (M : MathEnv α) (s : UKF α) (t : ℤ)
    (z : Fin 3 → α) (h : s.is_initialized_ = false) :
    ProcessMeasurement M s (.RADAR t z) =
      { s with
        time_us_ := t
        x_ := ![z 0 * M.cos (z 1), z 0 * M.sin (z 1), z 2, z 1, z 1]
        P_ := Matrix.diagonal ![s.std_radr_ ^ 2, s.std_radr_ ^ 2, s.std_radrd_ ^ 2,
          s.std_radphi_ ^ 2, s.std_radphi_ ^ 2]
        is_initialized_ := true } := by
  simp only [ProcessMeasurement, h, MeasurementPackage.timestamp_, diag5_eq, pow_two]
  rfl

lemma processMeasurement_initialized [FloorRing α] (M : MathEnv α) (s : UKF α)
    (m : MeasurementPackage α) (h : s.is_initialized_ = true) :
    ProcessMeasurement M s m =
      match m with
      | .LASER _ z =>
        UpdateLidar (Prediction M (elapsed s m) { s with time_us_ := m.timestamp_ }) z
      | .RADAR _ z =>
        UpdateRadar (Prediction M (elapsed s m) { s with time_us_ := m.timestamp_ }) z := by
  cases m <;> simp [ProcessMeasurement, h]

/-! ### Sigma points and the predicted mean -/

lemma augmentedMean_apply (s : UKF α) :
    augmentedMean s 0 = s.x_ 0 ∧ augmentedMean s 1 = s.x_ 1 ∧ augmentedMean s 2 = s.x_ 2 ∧
    augmentedMean s 3 = s.x_ 3 ∧ augmentedMean s 4 = s.x_ 4 ∧ augmentedMean s 5 = 0 ∧
    augmentedMean s 6 = 0 :=
  ⟨rfl, rfl, rfl, rfl, rfl, rfl, rfl⟩

lemma augmentedSigmaPoints_cols (M : MathEnv α) (s : UKF α)
    (L : Matrix (Fin n_aug) (Fin n_aug) α) (r : Fin n_aug) :
    augmentedSigmaPoints M s L r 0 = augmentedMean s r ∧
    augmentedSigmaPoints M s L r 1 =
      augmentedMean s r + M.sqrt (s.lambda_ + (n_aug : α)) * L r 0 ∧
    augmentedSigmaPoints M s L r 2 =
      augmentedMean s r + M.sqrt (s.lambda_ + (n_aug : α)) * L r 1 ∧
    augmentedSigmaPoints M s L r 3 =
      augmentedMean s r + M.sqrt (s.lambda_ + (n_aug : α)) * L r 2 ∧
    augmentedSigmaPoints M s L r 4 =
      augmentedMean s r + M.sqrt (s.lambda_ + (n_aug : α)) * L r 3 ∧
    augmentedSigmaPoints M s L r 5 =
      augmentedMean s r + M.sqrt (s.lambda_ + (n_aug : α)) * L r 4 ∧
    augmentedSigmaPoints M s L r 6 =
      augmentedMean s r + M.sqrt (s.lambda_ + (n_aug : α)) * L r 5 ∧
    augmentedSigmaPoints M s L r 7 =
      augmentedMean s r + M.sqrt (s.lambda_ + (n_aug : α)) * L r 6 ∧
    augmentedSigmaPoints M s L r 8 =
      augmentedMean s r - M.sqrt (s.lambda_ + (n_aug : α)) * L r 0 ∧
    augmentedSigmaPoints M s L r 9 =
      augmentedMean s r - M.sqrt (s.lambda_ + (n_aug : α)) * L r 1 ∧
    augmentedSigmaPoints M s L r 10 =
      augmentedMean s r - M.sqrt (s.lambda_ + (n_aug : α)) * L r 2 ∧
    augmentedSigmaPoints M s L r 11 =
      augmentedMean s r - M.sqrt (s.lambda_ + (n_aug : α)) * L r 3 ∧
    augmentedSigmaPoints M s L r 12 =
      augmentedMean s r - M.sqrt (s.lambda_ + (n_aug : α)) * L r 4 ∧
    augmentedSigmaPoints M s L r 13 =
      augmentedMean s r - M.sqrt (s.lambda_ + (n_aug : α)) * L r 5 ∧
    augmentedSigmaPoints M s L r 14 =
      augmentedMean s r - M.sqrt (s.lambda_ + (n_aug : α)) * L r 6 :=
  ⟨rfl, rfl, rfl, rfl, rfl, rfl, rfl, rfl, rfl, rfl, rfl, rfl, rfl, rfl, rfl⟩

lemma sum_weights_augmented (M : MathEnv α) (s : UKF α)
    (L : Matrix (Fin n_aug) (Fin n_aug) α) (l : α) (hl : l + (n_aug : α) ≠ 0)
    (hw : s.weights_ = mkWeights n_aug l) (r : Fin n_aug) :
    ∑ i : Fin n_sig, s.weights_ i * augmentedSigmaPoints M s L r i = augmentedMean s r := by
  rw [hw]
  have hl7 : l + 7 ≠ 0 := by simpa using hl
  show ∑ i : Fin 15, mkWeights 7 l i * augmentedSigmaPoints M s L r i = augmentedMean s r
  simp only [Fin.sum_univ_succ, Fin.sum_univ_zero, augmentedSigmaPoints, mkWeights,
    Function.update_apply]
  simp [sigmaIndex, Fin.ext_iff, n_aug]
  field_simp
  ring

lemma predictedMean_heading [FloorRing α] (M : MathEnv α) (dt : α) (s : UKF α) (l : α)
    (hl : l + (n_aug : α) ≠ 0) (hw : s.weights_ = mkWeights n_aug l) :
    (Prediction M dt s).x_ 3 = s.x_ 3 + s.x_ 4 * dt := by
  have h := sum_weights_augmented M s (llt M (augmentedCovariance s)) l hl hw
  have e : (Prediction M dt s).x_ 3 =
      ∑ i : Fin n_sig, s.weights_ i *
          augmentedSigmaPoints M s (llt M (augmentedCovariance s)) 3 i +
        (∑ i : Fin n_sig, s.weights_ i *
          augmentedSigmaPoints M s (llt M (augmentedCovariance s)) 4 i) * dt +
        1 / 2 * (∑ i : Fin n_sig, s.weights_ i *
          augmentedSigmaPoints M s (llt M (augmentedCovariance s)) 6 i) * dt * dt := by
    simp only [Prediction, predictedMean, predictSigmaPoints, predictSigmaPoint,
      Finset.sum_mul, Finset.mul_sum, ← Finset.sum_add_distrib]
    refine Finset.sum_congr rfl (fun i _ => ?_)
    simp
    ring
  obtain ⟨-, -, -, a3, a4, -, a6⟩ := augmentedMean_apply s
  rw [e, h 3, h 4, h 6, a3, a4, a6]
  ring

lemma stateDiff_of_ne [FloorRing α] (M : MathEnv α) (X : Matrix (Fin n_x) (Fin n_sig) α)
    (x : Fin n_x → α) (i : Fin n_sig) (a : Fin n_x) (ha : a ≠ 3) :
    stateDiff M X x i a = X a i - x a := by
  simp [stateDiff, Function.update_noteq ha]

lemma predictedCovariance_apply [FloorRing α] (M : MathEnv α) (w : Fin n_sig → α)
    (X : Matrix (Fin n_x) (Fin n_sig) α) (x : Fin n_x → α) (a b : Fin n_x) :
    predictedCovariance M w X x a b =
      ∑ i : Fin n_sig, w i * stateDiff M X x i a * stateDiff M X x i b := by
  simp [predictedCovariance, Matrix.sum_apply, Matrix.vecMulVec_apply]

/-! ### Cholesky factorization: diagonal matrices -/

lemma lltStep_diagonal (M : MathEnv α) (v : Fin n_aug → α) (k : Fin n_aug) (hk : 0 < v k) :
    lltStep M (Matrix.diagonal v) k =
      some (Matrix.diagonal (Function.update v k (M.sqrt (v k)))) := by
  have hz : ∀ i : Fin n_aug,
      (∑ c : Fin n_aug, if c < k then Matrix.diagonal v i c * Matrix.diagonal v k c else 0) = 0 := by
    intro i
    refine Finset.sum_eq_zero (fun c _ => ?_)
    split_ifs with hc
    · rw [Matrix.diagonal_apply_ne v (ne_of_gt hc), mul_zero]
    · rfl
  unfold lltStep
  simp only [hz, sub_zero, Matrix.diagonal_apply_eq, not_le.mpr hk, if_false]
  congr 1
  ext i j
  by_cases hj : j = k
  · subst hj
    by_cases hi : i = j
    · subst hi
      simp
    · simp [hi, Matrix.diagonal_apply_ne _ hi]
  · by_cases hi : i = j
    · subst hi
      simp [hj]
    · simp [hj, Matrix.diagonal_apply_ne _ hi]

lemma lltLoop_diagonal (M : MathEnv α) (ks : List (Fin n_aug)) :
    ∀ (v : Fin n_aug → α), ks.Nodup → (∀ k ∈ ks, 0 < v k) →
      lltLoop M ks (Matrix.diagonal v) =
        Matrix.diagonal (fun i => if i ∈ ks then M.sqrt (v i) else v i) := by
  induction ks with
  | nil => intro v _ _; simp [lltLoop]
  | cons k ks ih =>
    intro v hnd hpos
    have hk : k ∉ ks := (List.nodup_cons.mp hnd).1
    rw [lltLoop, lltStep_diagonal M v k (hpos k (List.mem_cons_self k ks))]
    simp only
    rw [ih _ (List.nodup_cons.mp hnd).2]
    · refine congrArg Matrix.diagonal (funext fun i => ?_)
      by_cases hik : i = k
      · subst hik
        simp [hk]
      · by_cases him : i ∈ ks
        · simp [hik, him]
        · simp [hik, him]
    · intro j hj
      have hjk : j ≠ k := fun e => hk (e ▸ hj)
      rw [Function.update_noteq hjk]
      exact hpos j (List.mem_cons_of_mem k hj)

lemma llt_diagonal (M : MathEnv α) (v : Fin n_aug → α) (hpos : ∀ k, 0 < v k) :
    llt M (Matrix.diagonal v) = Matrix.diagonal (fun i => M.sqrt (v i)) := by
  ext i j
  simp only [llt]
  rw [lltLoop_diagonal M _ v (List.nodup_finRange _) (fun k _ => hpos k)]
  by_cases hij : i = j
  · subst hij
    simp
  · simp [Matrix.diagonal_apply_ne _ hij]

/-! ### Lidar correction -/

lemma inverse2_eq_inv (S : Matrix (Fin 2) (Fin 2) α) : inverse2 S = S⁻¹ := by
  rw [Matrix.inv_def, Matrix.adjugate_fin_two, Matrix.det_fin_two, Ring.inverse_eq_inv']
  rfl

lemma lidarH_apply (i : Fin 2) (j : Fin n_x) :
    (lidarH : Matrix (Fin 2) (Fin n_x) α) i j = if j = Fin.castLE (by decide) i then 1 else 0 := by
  fin_cases i <;> fin_cases j <;> rfl

lemma lidarH_mulVec (x : Fin n_x → α) : (lidarH : Matrix (Fin 2) (Fin n_x) α) *ᵥ x =
    ![x 0, x 1] := by
  ext i
  fin_cases i <;> simp [Matrix.mulVec, Matrix.dotProduct, lidarH_apply]
  all_goals rfl

lemma mul_lidarH_transpose (P : Matrix (Fin n_x) (Fin n_x) α) :
    P * (lidarH : Matrix (Fin 2) (Fin n_x) α)ᵀ = P.submatrix id (Fin.castLE (by decide)) := by
  ext i j
  simp [Matrix.mul_apply, lidarH_apply]

lemma lidarH_mul_mul_transpose (P : Matrix (Fin n_x) (Fin n_x) α) :
    (lidarH : Matrix (Fin 2) (Fin n_x) α) * P * lidarHᵀ =
      P.submatrix (Fin.castLE (by decide)) (Fin.castLE (by decide)) := by
  rw [Matrix.mul_assoc, mul_lidarH_transpose]
  ext i j
  simp [Matrix.mul_apply, lidarH_apply]

lemma updateLidar_decoupled (s : UKF α) (z : Fin 2 → α)
    (h01 : s.P_ 0 1 = 0) (h10 : s.P_ 1 0 = 0)
    (hS0 : s.P_ 0 0 + s.std_laspx_ * s.std_laspx_ ≠ 0)
    (hS1 : s.P_ 1 1 + s.std_laspy_ * s.std_laspy_ ≠ 0) :
    (UpdateLidar s z).x_ 0 =
      s.x_ 0 + s.P_ 0 0 / (s.P_ 0 0 + s.std_laspx_ * s.std_laspx_) * (z 0 - s.x_ 0) ∧
    (UpdateLidar s z).x_ 1 =
      s.x_ 1 + s.P_ 1 1 / (s.P_ 1 1 + s.std_laspy_ * s.std_laspy_) * (z 1 - s.x_ 1) ∧
    (UpdateLidar s z).P_ 0 0 =
      s.P_ 0 0 - s.P_ 0 0 / (s.P_ 0 0 + s.std_laspx_ * s.std_laspx_) * s.P_ 0 0 ∧
    (UpdateLidar s z).P_ 1 1 =
      s.P_ 1 1 - s.P_ 1 1 / (s.P_ 1 1 + s.std_laspy_ * s.std_laspy_) * s.P_ 1 1 := by
  have c0 : (Fin.castLE (by decide : 2 ≤ n_x) 0 : Fin n_x) = 0 := rfl
  have c1 : (Fin.castLE (by decide : 2 ≤ n_x) 1 : Fin n_x) = 1 := rfl
  simp only [UpdateLidar, mul_lidarH_transpose, lidarH_mul_mul_transpose, lidarH_mulVec]
  refine ⟨?_, ?_, ?_, ?_⟩ <;>
  · simp [inverse2, lidarR, Matrix.mulVec, Matrix.dotProduct, Matrix.mul_apply,
      Fin.sum_univ_five, Fin.sum_univ_two, lidarH_apply, Matrix.one_apply, c0, c1, h01, h10,
      Matrix.vecHead, Matrix.vecTail, -mul_eq_mul_right_iff, -mul_eq_mul_left_iff]
    field_simp
    ring

/-! ### The prediction step on the state initialized by the lidar measurement (1, 1) -/

lemma scenarioB_augCov (s : UKF ℝ)
    (hP : s.P_ = Matrix.diagonal ![225 / 10000, 225 / 10000, 1, 1, 1])
    (ha : s.std_a_ = 3 / 10) (hy : s.std_yawdd_ = 3 / 10) :
    augmentedCovariance s =
      Matrix.diagonal ![225 / 10000, 225 / 10000, 1, 1, 1, 9 / 100, 9 / 100] := by
  ext i j
  fin_cases i <;> fin_cases j <;>
    simp [augmentedCovariance, hP, ha, hy, Matrix.diagonal, n_x, Fin.ext_iff, vec6_five] <;>
    first | decide | norm_num

lemma scenarioB_llt (M : MathEnv ℝ) (hM : M.IsReal) :
    llt M (Matrix.diagonal ![225 / 10000, 225 / 10000, 1, 1, 1, 9 / 100, 9 / 100]) =
      Matrix.diagonal ![15 / 100, 15 / 100, 1, 1, 1, 3 / 10, 3 / 10] := by
  rw [llt_diagonal]
  · refine congrArg Matrix.diagonal (funext fun i => ?_)
    have h1 : Real.sqrt (225 / 10000) = 15 / 100 := by
      rw [show (225 / 10000 : ℝ) = (15 / 100) ^ 2 by norm_num]
      exact Real.sqrt_sq (by norm_num)
    have h2 : Real.sqrt (9 / 100) = 3 / 10 := by
      rw [show (9 / 100 : ℝ) = (3 / 10) ^ 2 by norm_num]
      exact Real.sqrt_sq (by norm_num)
    rw [hM.1]
    fin_cases i <;> simp [h1, h2, vec7_five, vec7_six, vec6_five]
  · intro k
    fin_cases k <;> simp [vec7_five, vec7_six, vec6_five]

lemma scenarioB_rows (M : MathEnv ℝ) (hM : M.IsReal) (s : UKF ℝ)
    (hx : s.x_ = ![1, 1, 0, 0, 0]) (hl : s.lambda_ = 3 - (n_aug : ℝ))
    (X : Matrix (Fin n_x) (Fin n_sig) ℝ)
    (hX : X = predictSigmaPoints M (1 / 10) (augmentedSigmaPoints M s
      (Matrix.diagonal ![15 / 100, 15 / 100, 1, 1, 1, 3 / 10, 3 / 10]))) :
    X 0 0 = 1 ∧
    X 0 1 = 1 + 15 / 100 * M.sqrt 3 ∧
    X 0 2 = 1 ∧
    X 0 3 = 1 + 1 / 10 * M.sqrt 3 ∧
    X 0 4 = 1 ∧
    X 0 5 = 1 ∧
    X 0 6 = 1 + 15 / 10000 * M.sqrt 3 ∧
    X 0 7 = 1 ∧
    X 0 8 = 1 - 15 / 100 * M.sqrt 3 ∧
    X 0 9 = 1 ∧
    X 0 10 = 1 - 1 / 10 * M.sqrt 3 ∧
    X 0 11 = 1 ∧
    X 0 12 = 1 ∧
    X 0 13 = 1 - 15 / 10000 * M.sqrt 3 ∧
    X 0 14 = 1 ∧
    X 1 0 = 1 ∧
    X 1 1 = 1 ∧
    X 1 2 = 1 + 15 / 100 * M.sqrt 3 ∧
    X 1 3 = 1 ∧
    X 1 4 = 1 ∧
    X 1 5 = 1 ∧
    X 1 6 = 1 ∧
    X 1 7 = 1 ∧
    X 1 8 = 1 ∧
    X 1 9 = 1 - 15 / 100 * M.sqrt 3 ∧
    X 1 10 = 1 ∧
    X 1 11 = 1 ∧
    X 1 12 = 1 ∧
    X 1 13 = 1 ∧
    X 1 14 = 1 := by
  obtain ⟨a0, a1, a2, a3, a4, a5, a6⟩ := augmentedMean_apply s
  subst hX
  refine ⟨?_, ?_, ?_, ?_, ?_, ?_, ?_, ?_, ?_, ?_, ?_, ?_, ?_, ?_, ?_, ?_, ?_, ?_, ?_, ?_, ?_, ?_, ?_, ?_, ?_, ?_, ?_, ?_, ?_, ?_⟩ <;>
  · simp only [predictSigmaPoints, predictSigmaPoint, augmentedSigmaPoints_cols,
      a0, a1, a2, a3, a4, a5, a6, hx, hl]
    simp [Matrix.diagonal_apply, vec7_five, vec7_six, hM.2.1, hM.2.2.1]
    try norm_num
    try ring

lemma scenarioB_prediction (M : MathEnv ℝ) (hM : M.IsReal) (s : UKF ℝ)
    (hx : s.x_ = ![1, 1, 0, 0, 0])
    (hP : s.P_ = Matrix.diagonal ![225 / 10000, 225 / 10000, 1, 1, 1])
    (ha : s.std_a_ = 3 / 10) (hy : s.std_yawdd_ = 3 / 10)
    (hl : s.lambda_ = 3 - (n_aug : ℝ)) (hw : s.weights_ = mkWeights n_aug (3 - (n_aug : ℝ))) :
    (Prediction M (1 / 10) s).x_ 0 = 1 ∧ (Prediction M (1 / 10) s).x_ 1 = 1 ∧
    (Prediction M (1 / 10) s).P_ 0 0 = 3250225 / 100000000 ∧
    (Prediction M (1 / 10) s).P_ 0 1 = 0 ∧
    (Prediction M (1 / 10) s).P_ 1 0 = 0 ∧
    (Prediction M (1 / 10) s).P_ 1 1 = 225 / 10000 := by
  have hq : M.sqrt 3 * M.sqrt 3 = 3 := by
    rw [hM.1]
    exact Real.mul_self_sqrt (by norm_num)
  have hX : (Prediction M (1 / 10) s).Xsig_pred_ =
      predictSigmaPoints M (1 / 10) (augmentedSigmaPoints M s
        (Matrix.diagonal ![15 / 100, 15 / 100, 1, 1, 1, 3 / 10, 3 / 10])) := by
    show predictSigmaPoints M _ (augmentedSigmaPoints M s (llt M (augmentedCovariance s))) = _
    rw [scenarioB_augCov s hP ha hy, scenarioB_llt M hM]
  have hr := scenarioB_rows M hM s hx hl _ hX
  have hmean : ∀ a : Fin n_x, (Prediction M (1 / 10) s).x_ a =
      ∑ i : Fin n_sig, s.weights_ i * (Prediction M (1 / 10) s).Xsig_pred_ a i := fun _ => rfl
  have hm0 : (Prediction M (1 / 10) s).x_ 0 = 1 := by
    rw [hmean, sum_fin15, hw]
    simp only [hr]
    simp [mkWeights_ne_zero, mkWeights_zero]
    norm_num
    ring
  have hm1 : (Prediction M (1 / 10) s).x_ 1 = 1 := by
    rw [hmean, sum_fin15, hw]
    simp only [hr]
    simp [mkWeights_ne_zero, mkWeights_zero]
    norm_num
    ring
  have h03 : (0 : Fin n_x) ≠ 3 := by decide
  have h13 : (1 : Fin n_x) ≠ 3 := by decide
  have hcov : ∀ a b : Fin n_x, a ≠ 3 → b ≠ 3 → (Prediction M (1 / 10) s).P_ a b =
      ∑ i : Fin n_sig, s.weights_ i *
        ((Prediction M (1 / 10) s).Xsig_pred_ a i - (Prediction M (1 / 10) s).x_ a) *
        ((Prediction M (1 / 10) s).Xsig_pred_ b i - (Prediction M (1 / 10) s).x_ b) := by
    intro a b hane hbne
    show predictedCovariance M _ _ _ a b = _
    rw [predictedCovariance_apply]
    refine Finset.sum_congr rfl (fun i _ => ?_)
    rw [stateDiff_of_ne _ _ _ _ _ hane, stateDiff_of_ne _ _ _ _ _ hbne]
    rfl
  refine ⟨hm0, hm1, ?_, ?_, ?_, ?_⟩
  · rw [hcov 0 0 h03 h03, hm0, sum_fin15, hw]
    simp only [hr]
    simp [mkWeights_ne_zero, mkWeights_zero]
    norm_num
    linear_combination (3250225 / 300000000 : ℝ) * hq
  · rw [hcov 0 1 h03 h13, hm0, hm1, sum_fin15, hw]
    simp only [hr]
    simp [mkWeights_ne_zero, mkWeights_zero]
  · rw [hcov 1 0 h13 h03, hm0, hm1, sum_fin15, hw]
    simp only [hr]
    simp [mkWeights_ne_zero, mkWeights_zero]
  · rw [hcov 1 1 h13 h13, hm1, sum_fin15, hw]
    simp only [hr]
    simp [mkWeights_ne_zero, mkWeights_zero]
    norm_num
    linear_combination (225 / 30000 : ℝ) * hq

lemma scenarioA_state (M : MathEnv ℝ) (x0 : Fin n_x → ℝ) (P0 : Matrix (Fin n_x) (Fin n_x) ℝ)
    (X0 : Matrix (Fin n_x) (Fin n_sig) ℝ) :
    ProcessMeasurement M (new x0 P0 X0) (.LASER 0 ![1, 1]) =
      { new x0 P0 X0 with
        time_us_ := 0
        x_ := ![1, 1, 0, 0, 0]
        P_ := Matrix.diagonal ![225 / 10000, 225 / 10000, 1, 1, 1]
        is_initialized_ := true } := by
  rw [processMeasurement_uninit_laser M (new x0 P0 X0) 0 ![1, 1] rfl]
  norm_num [new]

lemma scenarioA_next (M : MathEnv ℝ) (x0 : Fin n_x → ℝ) (P0 : Matrix (Fin n_x) (Fin n_x) ℝ)
    (X0 : Matrix (Fin n_x) (Fin n_sig) ℝ) (m : MeasurementPackage ℝ)
    (hm : m.timestamp_ = 100000) :
    ProcessMeasurement M (ProcessMeasurement M (new x0 P0 X0) (.LASER 0 ![1, 1])) m =
      match m with
      | .LASER _ z =>
        UpdateLidar (Prediction M (1 / 10)
          { ProcessMeasurement M (new x0 P0 X0) (.LASER 0 ![1, 1]) with time_us_ := 100000 }) z
      | .RADAR _ z =>
        UpdateRadar (Prediction M (1 / 10)
          { ProcessMeasurement M (new x0 P0 X0) (.LASER 0 ![1, 1]) with time_us_ := 100000 }) z := by
  have hi : (ProcessMeasurement M (new x0 P0 X0) (.LASER 0 ![1, 1])).is_initialized_ = true := by
    rw [scenarioA_state]
  have hdt : elapsed (ProcessMeasurement M (new x0 P0 X0) (.LASER 0 ![1, 1])) m = 1 / 10 := by
    rw [scenarioA_state]
    simp only [elapsed, hm]
    norm_num
  rw [processMeasurement_initialized M _ m hi, hdt]
  cases m with
  | LASER t z =>
    have ht : t = 100000 := hm
    subst ht
    rfl
  | RADAR t z =>
    have ht : t = 100000 := hm
    subst ht
    rfl

lemma scenarioA_prediction (M : MathEnv ℝ) (hM : M.IsReal) (x0 : Fin n_x → ℝ)
    (P0 : Matrix (Fin n_x) (Fin n_x) ℝ) (X0 : Matrix (Fin n_x) (Fin n_sig) ℝ)
    (sP : UKF ℝ)
    (hsP : sP = Prediction M (1 / 10)
      { ProcessMeasurement M (new x0 P0 X0) (.LASER 0 ![1, 1]) with time_us_ := 100000 }) :
    sP.x_ 0 = 1 ∧ sP.x_ 1 = 1 ∧ sP.P_ 0 0 = 3250225 / 100000000 ∧ sP.P_ 0 1 = 0 ∧
    sP.P_ 1 0 = 0 ∧ sP.P_ 1 1 = 225 / 10000 ∧ sP.std_laspx_ = 15 / 100 ∧
    sP.std_laspy_ = 15 / 100 := by
  subst hsP
  have hA := scenarioA_state M x0 P0 X0
  obtain ⟨p0, p1, p00, p01, p10, p11⟩ := scenarioB_prediction M hM
    { ProcessMeasurement M (new x0 P0 X0) (.LASER 0 ![1, 1]) with time_us_ := 100000 }
    (by rw [hA]) (by rw [hA]) (by rw [hA]; rfl) (by rw [hA]; rfl) (by rw [hA]; rfl)
    (by rw [hA]; rfl)
  refine ⟨p0, p1, p00, p01, p10, p11, ?_, ?_⟩
  · show (ProcessMeasurement M (new x0 P0 X0) (.LASER 0 ![1, 1])).std_laspx_ = _
    rw [hA]
    rfl
  · show (ProcessMeasurement M (new x0 P0 X0) (.LASER 0 ![1, 1])).std_laspy_ = _
    rw [hA]
    rfl

/-! ### Angle normalization -/

lemma subLoop_spec [FloorRing α] (M : MathEnv α) (d : α) :
    subLoop M d ≤ M.M_PI ∧ (-M.M_PI < d → -M.M_PI < subLoop M d) ∧
    (d ≤ M.M_PI → subLoop M d = d) ∧
    (∃ k : ℕ, subLoop M d = d - k * (2 * M.M_PI)) ∧
    ∃ n : ℕ, subLoopFuel M n d = some (subLoop M d) := by
  have hpi := M.M_PI_pos
  induction d using subLoop.induct M with
  | case1 d h ih =>
    obtain ⟨h1, h2, h3, ⟨k, hk⟩, ⟨n, hn⟩⟩ := ih
    rw [subLoop, if_pos h]
    refine ⟨h1, fun _ => h2 (by linarith), fun h' => absurd h (not_lt.mpr h'), ⟨k + 1, ?_⟩,
      ⟨n + 1, ?_⟩⟩
    · rw [hk]
      push_cast
      ring
    · rw [subLoopFuel, if_pos h, hn]
  | case2 d h =>
    rw [subLoop, if_neg h]
    refine ⟨not_lt.mp h, fun h' => h', fun _ => rfl, ⟨0, by simp⟩, ⟨0, ?_⟩⟩
    rw [subLoopFuel, if_neg h]

lemma addLoop_spec [FloorRing α] (M : MathEnv α) (d : α) :
    -M.M_PI ≤ addLoop M d ∧ (d ≤ M.M_PI → addLoop M d ≤ M.M_PI) ∧
    (-M.M_PI ≤ d → addLoop M d = d) ∧
    (∃ k : ℕ, addLoop M d = d + k * (2 * M.M_PI)) ∧
    ∃ n : ℕ, addLoopFuel M n d = some (addLoop M d) := by
  have hpi := M.M_PI_pos
  induction d using addLoop.induct M with
  | case1 d h ih =>
    obtain ⟨h1, h2, h3, ⟨k, hk⟩, ⟨n, hn⟩⟩ := ih
    rw [addLoop, if_pos h]
    refine ⟨h1, fun _ => h2 (by linarith), fun h' => absurd h (not_lt.mpr h'), ⟨k + 1, ?_⟩,
      ⟨n + 1, ?_⟩⟩
    · rw [hk]
      push_cast
      ring
    · rw [addLoopFuel, if_pos h, hn]
  | case2 d h =>
    rw [addLoop, if_neg h]
    refine ⟨not_lt.mp h, fun h' => h', fun _ => rfl, ⟨0, by simp⟩, ⟨0, ?_⟩⟩
    rw [addLoopFuel, if_neg h]

lemma normalizeAngle_spec [FloorRing α] (M : MathEnv α) (d : α) :
    -M.M_PI ≤ normalizeAngle M d ∧ normalizeAngle M d ≤ M.M_PI ∧
    (-M.M_PI < d → -M.M_PI < normalizeAngle M d) ∧
    ∃ k : ℤ, normalizeAngle M d - d = k * (2 * M.M_PI) := by
  obtain ⟨s1, s2, -, ⟨j, hj⟩, -⟩ := subLoop_spec M d
  obtain ⟨a1, a2, a3, ⟨k, hk⟩, -⟩ := addLoop_spec M (subLoop M d)
  refine ⟨a1, a2 s1, fun h => ?_, ⟨(k : ℤ) - j, ?_⟩⟩
  · have := s2 h
    show -M.M_PI < addLoop M (subLoop M d)
    rw [a3 (le_of_lt this)]
    exact this
  · show addLoop M (subLoop M d) - d = _
    rw [hk, hj]
    push_cast
    ring

lemma normalizeAngle_of_mem [FloorRing α] (M : MathEnv α) (d : α)
    (h1 : -M.M_PI ≤ d) (h2 : d ≤ M.M_PI) : normalizeAngle M d = d := by
  show addLoop M (subLoop M d) = d
  rw [(subLoop_spec M d).2.2.1 h2, (addLoop_spec M d).2.2.1 h1]

/-! ### Linear components of the predicted mean -/

lemma predictedMean_linear [FloorRing α] (M : MathEnv α) (dt : α) (s : UKF α) (l : α)
    (hl : l + (n_aug : α) ≠ 0) (hw : s.weights_ = mkWeights n_aug l) :
    (Prediction M dt s).x_ 2 = s.x_ 2 ∧ (Prediction M dt s).x_ 4 = s.x_ 4 := by
  have h := sum_weights_augmented M s (llt M (augmentedCovariance s)) l hl hw
  obtain ⟨-, -, a2, -, a4, a5, a6⟩ := augmentedMean_apply s
  have e2 : (Prediction M dt s).x_ 2 =
      ∑ i : Fin n_sig, s.weights_ i *
          augmentedSigmaPoints M s (llt M (augmentedCovariance s)) 2 i +
        (∑ i : Fin n_sig, s.weights_ i *
          augmentedSigmaPoints M s (llt M (augmentedCovariance s)) 5 i) * dt := by
    simp only [Prediction, predictedMean, predictSigmaPoints, predictSigmaPoint,
      Finset.sum_mul, ← Finset.sum_add_distrib]
    refine Finset.sum_congr rfl (fun i _ => ?_)
    simp
    ring
  have e4 : (Prediction M dt s).x_ 4 =
      ∑ i : Fin n_sig, s.weights_ i *
          augmentedSigmaPoints M s (llt M (augmentedCovariance s)) 4 i +
        (∑ i : Fin n_sig, s.weights_ i *
          augmentedSigmaPoints M s (llt M (augmentedCovariance s)) 6 i) * dt := by
    simp only [Prediction, predictedMean, predictSigmaPoints, predictSigmaPoint,
      Finset.sum_mul, ← Finset.sum_add_distrib]
    refine Finset.sum_congr rfl (fun i _ => ?_)
    simp
    ring
  constructor
  · rw [e2, h 2, h 5, a2, a5]
    ring
  · rw [e4, h 4, h 6, a4, a6]
    ring

/-! ### Cholesky factorisation -/

lemma sum_split_at (k : Fin n_aug) (f : Fin n_aug → α) (hf : ∀ c, k < c → f c = 0) :
    ∑ c : Fin n_aug, f c = (∑ c : Fin n_aug, if c < k then f c else 0) + f k := by
  have e : ∀ c : Fin n_aug, f c = (if c < k then f c else 0) + (if c = k then f c else 0) := by
    intro c
    rcases lt_trichotomy c k with h | h | h
    · simp [h, ne_of_lt h]
    · simp [h]
    · simp [hf c h, not_lt_of_gt h, ne_of_gt h]
  rw [Finset.sum_congr rfl (fun c _ => e c), Finset.sum_add_distrib]
  simp

lemma lltStep_factor (M : MathEnv α) (L : Matrix (Fin n_aug) (Fin n_aug) α)
    (hsq : ∀ x : α, 0 < x → M.sqrt (x * x) = x)
    (htri : ∀ i j : Fin n_aug, i < j → L i j = 0) (hpos : ∀ i, 0 < L i i) (k : Fin n_aug) :
    lltStep M (fun i j => if j.val < k.val ∧ j ≤ i then L i j else (L * Lᵀ) i j) k =
      some (fun i j => if j.val < k.val + 1 ∧ j ≤ i then L i j else (L * Lᵀ) i j) := by
  have hA : ∀ i : Fin n_aug, (L * Lᵀ) i k =
      (∑ c : Fin n_aug, if c < k then L i c * L k c else 0) + L i k * L k k := by
    intro i
    rw [Matrix.mul_apply]
    simp only [Matrix.transpose_apply]
    exact sum_split_at k (fun c => L i c * L k c) (fun c hc => by simp [htri k c hc])
  have hrow : ∀ i : Fin n_aug, k ≤ i →
      (∑ c : Fin n_aug, if c < k then
        (if c.val < k.val ∧ c ≤ i then L i c else (L * Lᵀ) i c) *
        (if c.val < k.val ∧ c ≤ k then L k c else (L * Lᵀ) k c) else 0) =
      ∑ c : Fin n_aug, if c < k then L i c * L k c else 0 := by
    intro i hi
    refine Finset.sum_congr rfl (fun c _ => ?_)
    by_cases hc : c < k
    · have h1 : c.val < k.val := hc
      have h2 : c ≤ k := le_of_lt hc
      have h3 : c ≤ i := le_trans h2 hi
      simp [hc, h1, h2, h3]
    · simp [hc]
  have hx : (if k.val < k.val ∧ k ≤ k then L k k else (L * Lᵀ) k k) -
      (∑ c : Fin n_aug, if c < k then
        (if c.val < k.val ∧ c ≤ k then L k c else (L * Lᵀ) k c) *
        (if c.val < k.val ∧ c ≤ k then L k c else (L * Lᵀ) k c) else 0) = L k k * L k k := by
    rw [hrow k (le_refl k), hA k]
    simp
  unfold lltStep
  simp only [hx]
  have hp := hpos k
  rw [if_neg (not_le.mpr (mul_pos hp hp)), hsq _ hp]
  congr 1
  funext i j
  by_cases hj : j = k
  · subst hj
    by_cases hi : i = j
    · subst hi
      simp
    · by_cases hlt : j < i
      · have hle : j ≤ i := le_of_lt hlt
        rw [if_pos rfl, if_neg hi, if_pos hlt, hrow i hle]
        simp only [lt_irrefl, false_and, if_false, hle, and_true, Nat.lt_succ_self, if_true]
        rw [hA i]
        field_simp
      · have hle : ¬ j ≤ i := fun h => hlt (lt_of_le_of_ne h (Ne.symm hi))
        simp [hi, hlt, hle]
  · have hv : j.val ≠ k.val := fun h => hj (Fin.ext h)
    have e : (j.val < k.val + 1) ↔ (j.val < k.val) := by omega
    simp [hj, e]

lemma llt_factor (M : MathEnv α) (L : Matrix (Fin n_aug) (Fin n_aug) α)
    (hsq : ∀ x : α, 0 < x → M.sqrt (x * x) = x)
    (htri : ∀ i j : Fin n_aug, i < j → L i j = 0) (hpos : ∀ i, 0 < L i i) :
    llt M (L * Lᵀ) = L := by
  have hl : List.finRange n_aug = [0, 1, 2, 3, 4, 5, 6] := by decide
  have hstep : ∀ (k : ℕ) (hk : k < n_aug),
      lltStep M (fun i j => if j.val < k ∧ j ≤ i then L i j else (L * Lᵀ) i j) ⟨k, hk⟩ =
        some (fun i j => if j.val < k + 1 ∧ j ≤ i then L i j else (L * Lᵀ) i j) :=
    fun k hk => lltStep_factor M L hsq htri hpos ⟨k, hk⟩
  have e0 : (L * Lᵀ) = fun i j : Fin n_aug =>
      if j.val < 0 ∧ j ≤ i then L i j else (L * Lᵀ) i j := by
    funext i j
    simp
  have hloop : lltLoop M (List.finRange n_aug) (L * Lᵀ) =
      fun i j : Fin n_aug => if j.val < 7 ∧ j ≤ i then L i j else (L * Lᵀ) i j := by
    rw [hl]
    conv_lhs => rw [e0]
    rw [lltLoop, show lltStep M _ (0 : Fin n_aug) = _ from hstep 0 (by decide)]
    simp only
    rw [lltLoop, show lltStep M _ (1 : Fin n_aug) = _ from hstep 1 (by decide)]
    simp only
    rw [lltLoop, show lltStep M _ (2 : Fin n_aug) = _ from hstep 2 (by decide)]
    simp only
    rw [lltLoop, show lltStep M _ (3 : Fin n_aug) = _ from hstep 3 (by decide)]
    simp only
    rw [lltLoop, show lltStep M _ (4 : Fin n_aug) = _ from hstep 4 (by decide)]
    simp only
    rw [lltLoop, show lltStep M _ (5 : Fin n_aug) = _ from hstep 5 (by decide)]
    simp only
    rw [lltLoop, show lltStep M _ (6 : Fin n_aug) = _ from hstep 6 (by decide)]
    simp only
    rw [lltLoop]
  funext i j
  simp only [llt, hloop]
  by_cases hij : j ≤ i
  · simp [hij, j.isLt]
  · simp [hij, htri i j (not_le.mp hij)]

lemma posDef_det_ne_zero {n : ℕ} (A : Matrix (Fin n) (Fin n) ℝ) (hA : A.PosDef) :
    A.det ≠ 0 := by
  intro h0
  obtain ⟨v, hv, hAv⟩ := Matrix.exists_mulVec_eq_zero_iff.mpr h0
  have := hA.2 v hv
  rw [hAv] at this
  simp at this

lemma exists_ldl {n : ℕ} (A : Matrix (Fin n) (Fin n) ℝ) (hA : A.PosDef) :
    ∃ (Li : Matrix (Fin n) (Fin n) ℝ) (d : Fin n → ℝ),
      (∀ i j, i < j → Li i j = 0) ∧ Li.det ≠ 0 ∧ Matrix.diagonal d = Li * A * Liᵀ := by
  have hD := @LDL.diag_eq_lowerInv_conj ℝ _ (Fin n) Fin.instLinearOrder
    (inferInstanceAs (WellFoundedLT (Fin n))) _ A _ hA
  have htri := fun (i j : Fin n) (hij : i < j) =>
    @LDL.lowerInv_triangular ℝ _ (Fin n) Fin.instLinearOrder
      (inferInstanceAs (WellFoundedLT (Fin n))) _ A _ hA i j hij
  have hinv := @LDL.invertibleLowerInv ℝ _ (Fin n) Fin.instLinearOrder
    (inferInstanceAs (WellFoundedLT (Fin n))) _ A _ hA
  have hdet : (@LDL.lowerInv ℝ _ (Fin n) Fin.instLinearOrder
      (inferInstanceAs (WellFoundedLT (Fin n))) _ A _ hA).det ≠ 0 := by
    have h1 : (@LDL.lowerInv ℝ _ (Fin n) Fin.instLinearOrder
        (inferInstanceAs (WellFoundedLT (Fin n))) _ A _ hA) * hinv.invOf = 1 := by
      convert hinv.mul_invOf_self
    exact Matrix.det_ne_zero_of_right_inverse h1
  unfold LDL.diag at hD
  rw [Matrix.conjTranspose_eq_transpose_of_trivial] at hD
  generalize (@LDL.lowerInv ℝ _ (Fin n) Fin.instLinearOrder
    (inferInstanceAs (WellFoundedLT (Fin n))) _ A _ hA) = Li at hD htri hdet
  generalize (@LDL.diagEntries ℝ _ (Fin n) Fin.instLinearOrder
    (inferInstanceAs (WellFoundedLT (Fin n))) _ A _ hA) = d at hD
  refine ⟨Li, d, htri, hdet, ?_⟩
  convert hD

lemma exists_cholesky_factor {n : ℕ} (A : Matrix (Fin n) (Fin n) ℝ) (hA : A.PosDef) :
    ∃ L : Matrix (Fin n) (Fin n) ℝ,
      (∀ i j, i < j → L i j = 0) ∧ (∀ i, 0 < L i i) ∧ L * Lᵀ = A := by
  obtain ⟨Li, d, htri, hdetLi, hD⟩ := exists_ldl A hA
  have hunit : IsUnit Li.det := isUnit_iff_ne_zero.mpr hdetLi
  have hLi : Matrix.BlockTriangular Li (OrderDual.toDual : Fin n → (Fin n)ᵒᵈ) :=
    fun i j hij => htri i j hij
  haveI : Invertible Li := Matrix.invertibleOfIsUnitDet Li hunit
  have hlow : Matrix.BlockTriangular Li⁻¹ (OrderDual.toDual : Fin n → (Fin n)ᵒᵈ) :=
    blockTriangular_inv_of_blockTriangular hLi
  have hdec : Li⁻¹ * Matrix.diagonal d * (Li⁻¹)ᵀ = A := by
    have hT : IsUnit Liᵀ.det := by rw [Matrix.det_transpose]; exact hunit
    rw [hD, Matrix.transpose_nonsing_inv]
    simp only [Matrix.mul_assoc, Matrix.mul_nonsing_inv _ hT, Matrix.mul_one]
    rw [← Matrix.mul_assoc, Matrix.nonsing_inv_mul _ hunit, Matrix.one_mul]
  have hpsd : (Matrix.diagonal d).PosSemidef := by
    rw [hD]
    have := hA.posSemidef.mul_mul_conjTranspose_same Li
    simpa using this
  have hd0 : ∀ i, 0 ≤ d i := posSemidef_diagonal_iff.mp hpsd
  have hdne : ∀ i, d i ≠ 0 := by
    intro i h
    have hdet : (Matrix.diagonal d).det ≠ 0 := by
      rw [hD, det_mul, det_mul, det_transpose]
      simp [hdetLi, posDef_det_ne_zero A hA]
    apply hdet
    rw [det_diagonal]
    exact Finset.prod_eq_zero (Finset.mem_univ i) h
  have hdpos : ∀ i, 0 < d i := fun i => lt_of_le_of_ne (hd0 i) (hdne i).symm
  have hlne : ∀ i, Li⁻¹ i i ≠ 0 := by
    intro i h
    have hdet : (Li⁻¹).det ≠ 0 := by
      rw [Matrix.det_nonsing_inv, Ring.inverse_eq_inv']
      exact inv_ne_zero hdetLi
    apply hdet
    rw [det_of_lowerTriangular _ hlow]
    exact Finset.prod_eq_zero (Finset.mem_univ i) h
  let sg : Fin n → ℝ := fun j => if 0 < Li⁻¹ j j then Real.sqrt (d j) else -Real.sqrt (d j)
  have hsg : ∀ j, sg j * sg j = d j := by
    intro j
    simp only [sg]
    split_ifs <;> simp [Real.mul_self_sqrt (hd0 j)]
  refine ⟨Li⁻¹ * Matrix.diagonal sg, ?_, ?_, ?_⟩
  · intro i j hij
    rw [Matrix.mul_diagonal, hlow hij, zero_mul]
  · intro i
    rw [Matrix.mul_diagonal]
    simp only [sg]
    have hs : 0 < Real.sqrt (d i) := Real.sqrt_pos.mpr (hdpos i)
    split_ifs with h
    · exact mul_pos h hs
    · have : Li⁻¹ i i < 0 := lt_of_le_of_ne (not_lt.mp h) (hlne i)
      nlinarith
  · rw [Matrix.transpose_mul, Matrix.diagonal_transpose, ← Matrix.mul_assoc,
      Matrix.mul_assoc Li⁻¹, Matrix.diagonal_mul_diagonal]
    simp only [hsg]
    exact hdec

lemma augmentedCovariance_eq_augBlock (s : UKF α) :
    augmentedCovariance s = augBlock s.P_ (s.std_a_ * s.std_a_) (s.std_yawdd_ * s.std_yawdd_) :=
  rfl

lemma sum_fin7_split (f : Fin n_aug → α) :
    ∑ c : Fin n_aug, f c =
      (∑ c : Fin n_x, f ⟨c.val, lt_trans c.isLt (by decide)⟩) + f 5 + f 6 := by
  show ∑ c : Fin 7, f c = (∑ c : Fin 5, f ⟨c.val, _⟩) + f 5 + f 6
  rw [Fin.sum_univ_castSucc, Fin.sum_univ_castSucc]
  rfl

lemma augBlock_mul_transpose (A B : Matrix (Fin n_x) (Fin n_x) α) (a b y z : α) :
    augBlock A a y * (augBlock B b z)ᵀ = augBlock (A * Bᵀ) (a * b) (y * z) := by
  ext i j
  rw [Matrix.mul_apply, sum_fin7_split]
  simp only [Matrix.transpose_apply, augBlock, Matrix.mul_apply]
  have hi : i.val < 7 := i.isLt
  have hj : j.val < 7 := j.isLt
  have hx5 : ∀ x : Fin n_x, ¬ (x : ℕ) = 5 := fun x => Nat.ne_of_lt x.isLt
  have hx6 : ∀ x : Fin n_x, ¬ (x : ℕ) = 6 := fun x => Nat.ne_of_lt (lt_trans x.isLt (by decide))
  have h5 : ((5 : Fin n_aug) : ℕ) = 5 := rfl
  have h6 : ((6 : Fin n_aug) : ℕ) = 6 := rfl
  simp only [h5, h6, hx5, hx6, Fin.is_lt, and_true, lt_irrefl, and_false, dite_false, if_false,
    Nat.lt_irrefl, show ¬ (6 < n_x) by decide, show ¬ (5 < n_x) by decide, show n_x = 5 from rfl,
    show ¬ ((6 : ℕ) = 5) by decide, show ¬ ((5 : ℕ) = 6) by decide, and_self]
  by_cases hi5 : i.val < 5
  · have e1 : i.val ≠ 5 := by omega
    have e2 : i.val ≠ 6 := by omega
    by_cases hj5 : j.val < 5
    · have e3 : j.val ≠ 5 := by omega
      have e4 : j.val ≠ 6 := by omega
      simp [hi5, hj5, e1, e2, e3, e4]
    · simp [hi5, hj5, e1, e2]
  · by_cases hi6 : i.val = 5
    · by_cases hj5 : j.val < 5
      · have e3 : j.val ≠ 5 := by omega
        simp [hi5, hj5, hi6, e3]
      · by_cases hj6 : j.val = 5
        · simp [hi5, hj5, hi6, hj6]
        · have e4 : j.val = 6 := by omega
          simp [hi5, hj5, hi6, hj6, e4]
    · have e2 : i.val = 6 := by omega
      by_cases hj5 : j.val < 5
      · have e3 : j.val ≠ 6 := by omega
        simp [hi5, hj5, hi6, e2, e3]
      · by_cases hj6 : j.val = 5
        · simp [hi5, hj5, hi6, hj6, e2]
        · have e4 : j.val = 6 := by omega
          simp [hi5, hj5, hi6, hj6, e2, e4]

/-! ### Symmetry of the covariance -/

lemma predictedCovariance_isSymm [FloorRing α] (M : MathEnv α) (w : Fin n_sig → α)
    (X : Matrix (Fin n_x) (Fin n_sig) α) (x : Fin n_x → α) :
    (predictedCovariance M w X x).IsSymm := by
  ext a b
  rw [Matrix.transpose_apply, predictedCovariance_apply, predictedCovariance_apply]
  exact Finset.sum_congr rfl (fun i _ => by ring)

lemma inverse2_isSymm (S : Matrix (Fin 2) (Fin 2) α) (hS : S.IsSymm) :
    (inverse2 S).IsSymm := by
  have h01 : S 1 0 = S 0 1 := by
    have := congrFun (congrFun hS 0) 1
    simpa [Matrix.transpose_apply] using this
  ext i j
  fin_cases i <;> fin_cases j <;> simp [inverse2, Matrix.transpose_apply, h01]

lemma updateLidar_isSymm (s : UKF α) (z : Fin 2 → α) (hP : s.P_.IsSymm) :
    (UpdateLidar s z).P_.IsSymm := by
  have hR : (lidarR s).IsSymm := by
    ext i j
    fin_cases i <;> fin_cases j <;> simp [lidarR, Matrix.transpose_apply]
  have hS : ((lidarH : Matrix (Fin 2) (Fin n_x) α) * s.P_ * lidarHᵀ + lidarR s).IsSymm := by
    show (_ + _)ᵀ = _
    rw [Matrix.transpose_add, Matrix.transpose_mul, Matrix.transpose_mul,
      Matrix.transpose_transpose, hP.eq, hR.eq, Matrix.mul_assoc]
  have hI := (inverse2_isSymm _ hS).eq
  show ((1 - s.P_ * lidarHᵀ * inverse2 (lidarH * s.P_ * lidarHᵀ + lidarR s) * lidarH) * s.P_)ᵀ =
    (1 - s.P_ * lidarHᵀ * inverse2 (lidarH * s.P_ * lidarHᵀ + lidarR s) * lidarH) * s.P_
  rw [Matrix.transpose_mul, Matrix.transpose_sub, Matrix.transpose_one, Matrix.transpose_mul,
    Matrix.transpose_mul, Matrix.transpose_mul, Matrix.transpose_transpose, hP.eq, hI]
  simp only [Matrix.mul_sub, Matrix.sub_mul, Matrix.mul_one, Matrix.one_mul, Matrix.mul_assoc]

lemma processMeasurement_isSymm [FloorRing α] (M : MathEnv α) (s : UKF α)
    (m : MeasurementPackage α) : (ProcessMeasurement M s m).P_.IsSymm := by
  cases hi : s.is_initialized_ with
  | false =>
    cases m with
    | LASER t z =>
      rw [processMeasurement_uninit_laser M s t z hi]
      exact Matrix.isSymm_diagonal _
    | RADAR t z =>
      rw [processMeasurement_uninit_radar M s t z hi]
      exact Matrix.isSymm_diagonal _
  | true =>
    rw [processMeasurement_initialized M s m hi]
    cases m with
    | LASER t z => exact updateLidar_isSymm _ z (predictedCovariance_isSymm _ _ _ _)
    | RADAR t z => exact predictedCovariance_isSymm _ _ _ _

lemma run_isSymm [FloorRing α] (M : MathEnv α) (ms : List (MeasurementPackage α)) :
    ∀ s : UKF α, s.P_.IsSymm → (run M s ms).P_.IsSymm := by
  induction ms with
  | nil => intro s h; exact h
  | cons m ms ih =>
    intro s _
    exact ih _ (processMeasurement_isSymm M s m)

/-! ### Weighted outer products of the augmented sigma points -/

lemma sum_fin7 (f : Fin n_aug → α) :
    ∑ c, f c = f 0 + f 1 + f 2 + f 3 + f 4 + f 5 + f 6 := by
  show ∑ c : Fin 7, f c = _
  rw [Fin.sum_univ_seven]

lemma sum_weights_outer (M : MathEnv α) (s : UKF α)
    (L : Matrix (Fin n_aug) (Fin n_aug) α) (l : α) (hl : l + (n_aug : α) ≠ 0)
    (hw : s.weights_ = mkWeights n_aug l)
    (hq : M.sqrt (s.lambda_ + (n_aug : α)) * M.sqrt (s.lambda_ + (n_aug : α)) = l + (n_aug : α))
    (a b : Fin n_aug) :
    ∑ i : Fin n_sig, s.weights_ i *
        (augmentedSigmaPoints M s L a i - augmentedMean s a) *
        (augmentedSigmaPoints M s L b i - augmentedMean s b) = (L * Lᵀ) a b := by
  have hwi : ∀ i : Fin n_sig, i ≠ 0 → mkWeights n_aug l i = (1 / 2) / (l + n_aug) :=
    fun i hi => mkWeights_ne_zero n_aug l i hi
  obtain ⟨a0, a1, a2, a3, a4, a5, a6, a7, a8, a9, a10, a11, a12, a13, a14⟩ :=
    augmentedSigmaPoints_cols M s L a
  obtain ⟨b0, b1, b2, b3, b4, b5, b6, b7, b8, b9, b10, b11, b12, b13, b14⟩ :=
    augmentedSigmaPoints_cols M s L b
  rw [sum_fin15, hw, Matrix.mul_apply, sum_fin7]
  simp only [Matrix.transpose_apply]
  rw [a0, a1, a2, a3, a4, a5, a6, a7, a8, a9, a10, a11, a12, a13, a14,
    b0, b1, b2, b3, b4, b5, b6, b7, b8, b9, b10, b11, b12, b13, b14,
    hwi 1 (by decide), hwi 2 (by decide), hwi 3 (by decide), hwi 4 (by decide),
    hwi 5 (by decide), hwi 6 (by decide), hwi 7 (by decide), hwi 8 (by decide),
    hwi 9 (by decide), hwi 10 (by decide), hwi 11 (by decide), hwi 12 (by decide),
    hwi 13 (by decide), hwi 14 (by decide)]
  generalize M.sqrt (s.lambda_ + (n_aug : α)) = q at hq
  generalize (l + (n_aug : α)) = d at hq hl
  have hc : 1 / 2 / d * (q * q) = 1 / 2 := by
    rw [hq]
    field_simp
    ring
  linear_combination (2 * (L a 0 * L b 0 + L a 1 * L b 1 + L a 2 * L b 2 + L a 3 * L b 3 +
    L a 4 * L b 4 + L a 5 * L b 5 + L a 6 * L b 6)) * hc

/-! ### The flags `use_laser_` and `use_radar_` -/

lemma processMeasurement_flags [FloorRing α] (M : MathEnv α) (s : UKF α)
    (m : MeasurementPackage α) (b1 b2 : Bool) :
    ProcessMeasurement M { s with use_laser_ := b1, use_radar_ := b2 } m =
      { ProcessMeasurement M s m with use_laser_ := b1, use_radar_ := b2 } := by
  by_cases hi : s.is_initialized_ = true
  · rw [processMeasurement_initialized M s m hi,
      processMeasurement_initialized M { s with use_laser_ := b1, use_radar_ := b2 } m hi]
    cases m <;> rfl
  · have hf : s.is_initialized_ = false := by simpa using hi
    cases m with
    | LASER t z =>
      rw [processMeasurement_uninit_laser M s t z hf,
        processMeasurement_uninit_laser M { s with use_laser_ := b1, use_radar_ := b2 } t z hf]
    | RADAR t z =>
      rw [processMeasurement_uninit_radar M s t z hf,
        processMeasurement_uninit_radar M { s with use_laser_ := b1, use_radar_ := b2 } t z hf]

/-! ### Prediction with zero elapsed time -/

lemma augBlock_factor (M : MathEnv α) (hsq : ∀ x : α, 0 < x → M.sqrt (x * x) = x)
    (L : Matrix (Fin n_x) (Fin n_x) α) (a y : α)
    (htri : ∀ i j : Fin n_x, i < j → L i j = 0) (hpos : ∀ i, 0 < L i i)
    (ha : 0 < a) (hy : 0 < y) :
    llt M (augBlock (L * Lᵀ) (a * a) (y * y)) = augBlock L a y := by
  rw [← augBlock_mul_transpose]
  refine llt_factor M _ hsq ?_ ?_
  · intro i j hij
    have hi : i.val < 7 := i.isLt
    have hj : j.val < 7 := j.isLt
    have hlt : i.val < j.val := hij
    simp only [augBlock, n_x]
    split_ifs with h1 h2 h3
    · exact htri _ _ hlt
    · omega
    · omega
    · rfl
  · intro i
    have hi : i.val < 7 := i.isLt
    simp only [augBlock, n_x]
    split_ifs with h1 h2 h3
    · exact hpos _
    · exact ha
    · exact hy
    · omega

lemma llt_augmentedCovariance (M : MathEnv ℝ) (hM : M.IsReal) (s : UKF ℝ)
    (hP : s.P_.PosDef) (ha : s.std_a_ ≠ 0) (hy : s.std_yawdd_ ≠ 0) :
    llt M (augmentedCovariance s) * (llt M (augmentedCovariance s))ᵀ = augmentedCovariance s := by
  obtain ⟨L, htri, hpos, hL⟩ := exists_cholesky_factor s.P_ hP
  have hsq : ∀ x : ℝ, 0 < x → M.sqrt (x * x) = x := by
    intro x hx
    rw [hM.1]
    exact Real.sqrt_mul_self (le_of_lt hx)
  have e : augmentedCovariance s =
      augBlock (L * Lᵀ) (|s.std_a_| * |s.std_a_|) (|s.std_yawdd_| * |s.std_yawdd_|) := by
    rw [augmentedCovariance_eq_augBlock, hL, abs_mul_abs_self, abs_mul_abs_self]
  rw [e, augBlock_factor M hsq L _ _ htri hpos (abs_pos.mpr ha) (abs_pos.mpr hy),
    augBlock_mul_transpose]

lemma predictSigmaPoints_zero_dt (M : MathEnv α) (Xsig_aug : Matrix (Fin n_aug) (Fin n_sig) α)
    (r : Fin n_x) (i : Fin n_sig) :
    predictSigmaPoints M 0 Xsig_aug r i =
      Xsig_aug ⟨r.val, lt_trans r.isLt (by decide)⟩ i := by
  have e : predictSigmaPoint M 0 (fun k => Xsig_aug k i) =
      ![Xsig_aug 0 i, Xsig_aug 1 i, Xsig_aug 2 i, Xsig_aug 3 i, Xsig_aug 4 i] := by
    simp [predictSigmaPoint]
  show predictSigmaPoint M 0 (fun k => Xsig_aug k i) r = _
  rw [e]
  fin_cases r <;> rfl

lemma augmentedSigmaPoints_dev_abs (M : MathEnv α) (s : UKF α)
    (L : Matrix (Fin n_aug) (Fin n_aug) α) (r : Fin n_aug) (B : α) (hB : 0 ≤ B)
    (hb : ∀ i, M.sqrt (s.lambda_ + (n_aug : α)) * |L r i| ≤ B)
    (hq0 : 0 ≤ M.sqrt (s.lambda_ + (n_aug : α))) (i : Fin n_sig) :
    |augmentedSigmaPoints M s L r i - augmentedMean s r| ≤ B := by
  have hbi := hb (sigmaIndex i)
  have e : |M.sqrt (s.lambda_ + (n_aug : α)) * L r (sigmaIndex i)| =
      M.sqrt (s.lambda_ + (n_aug : α)) * |L r (sigmaIndex i)| := by
    rw [abs_mul, abs_of_nonneg hq0]
  simp only [augmentedSigmaPoints]
  split_ifs
  · simpa using hB
  · rw [add_sub_cancel_left, e]
    exact hbi
  · rw [sub_sub_cancel_left, abs_neg, e]
    exact hbi

lemma prediction_zero_dt [FloorRing α] (M : MathEnv α) (s : UKF α) (l : α)
    (hl : l + (n_aug : α) ≠ 0) (hw : s.weights_ = mkWeights n_aug l)
    (hq : M.sqrt (s.lambda_ + (n_aug : α)) * M.sqrt (s.lambda_ + (n_aug : α)) = l + (n_aug : α))
    (hq0 : 0 ≤ M.sqrt (s.lambda_ + (n_aug : α)))
    (hLL : llt M (augmentedCovariance s) * (llt M (augmentedCovariance s))ᵀ =
      augmentedCovariance s)
    (hb : ∀ i, M.sqrt (s.lambda_ + (n_aug : α)) * |llt M (augmentedCovariance s) 3 i| ≤ M.M_PI) :
    (Prediction M 0 s).x_ = s.x_ ∧ (Prediction M 0 s).P_ = s.P_ := by
  have hmean : ∀ r : Fin n_x, augmentedMean s ⟨r.val, lt_trans r.isLt (by decide)⟩ = s.x_ r := by
    intro r
    simp [augmentedMean]
  have hx : (Prediction M 0 s).x_ = s.x_ := by
    funext r
    show ∑ i : Fin n_sig, s.weights_ i * predictSigmaPoints M 0 _ r i = _
    simp only [predictSigmaPoints_zero_dt]
    rw [sum_weights_augmented M s _ l hl hw, hmean]
  refine ⟨hx, ?_⟩
  have hX : (Prediction M 0 s).P_ = predictedCovariance M s.weights_
      (predictSigmaPoints M 0 (augmentedSigmaPoints M s (llt M (augmentedCovariance s))))
      (Prediction M 0 s).x_ := rfl
  rw [hX, hx]
  ext a b
  have hsd : ∀ (i : Fin n_sig) (r : Fin n_x),
      stateDiff M (predictSigmaPoints M 0
        (augmentedSigmaPoints M s (llt M (augmentedCovariance s)))) s.x_ i r =
      augmentedSigmaPoints M s (llt M (augmentedCovariance s))
        ⟨r.val, lt_trans r.isLt (by decide)⟩ i -
        augmentedMean s ⟨r.val, lt_trans r.isLt (by decide)⟩ := by
    intro i r
    by_cases hr : r = 3
    · subst hr
      have habs := augmentedSigmaPoints_dev_abs M s (llt M (augmentedCovariance s)) 3 M.M_PI
        (le_of_lt M.M_PI_pos) hb hq0 i
      rw [abs_le] at habs
      simp only [stateDiff, Function.update_same, predictSigmaPoints_zero_dt, ← hmean]
      exact normalizeAngle_of_mem M _ habs.1 habs.2
    · rw [stateDiff_of_ne _ _ _ _ _ hr, predictSigmaPoints_zero_dt, hmean]
  rw [predictedCovariance_apply]
  simp only [hsd]
  rw [sum_weights_outer M s _ l hl hw hq, hLL]
  simp [augmentedCovariance]

/-! ### Positive semi-definiteness through the lidar correction -/

lemma joseph_posSemidef {n m : ℕ} (P : Matrix (Fin n) (Fin n) ℝ) (H : Matrix (Fin m) (Fin n) ℝ)
    (R : Matrix (Fin m) (Fin m) ℝ) (hP : P.PosSemidef) (hR : R.PosDef) :
    ((1 - P * Hᵀ * (H * P * Hᵀ + R)⁻¹ * H) * P).PosSemidef := by
  have hHP : (H * P * Hᵀ).PosSemidef := by
    have := hP.mul_mul_conjTranspose_same H
    rwa [Matrix.conjTranspose_eq_transpose_of_trivial] at this
  have hS : (H * P * Hᵀ + R).PosDef := Matrix.PosDef.posSemidef_add hHP hR
  have hunit : IsUnit (H * P * Hᵀ + R).det :=
    isUnit_iff_ne_zero.mpr (posDef_det_ne_zero _ hS)
  generalize hK : P * Hᵀ * (H * P * Hᵀ + R)⁻¹ = K
  have hKS : K * (H * P * Hᵀ + R) = P * Hᵀ := by
    rw [← hK, Matrix.mul_assoc, Matrix.nonsing_inv_mul _ hunit, Matrix.mul_one]
  have hkey : (1 - K * H) * P * Hᵀ = K * R := by
    rw [Matrix.mul_add] at hKS
    rw [Matrix.sub_mul, Matrix.sub_mul, Matrix.one_mul, ← hKS]
    simp only [Matrix.mul_assoc]
    abel
  have hJ : (1 - K * H) * P = (1 - K * H) * P * (1 - K * H)ᴴ + K * R * Kᴴ := by
    rw [Matrix.conjTranspose_eq_transpose_of_trivial, Matrix.conjTranspose_eq_transpose_of_trivial,
      Matrix.transpose_sub, Matrix.transpose_one, Matrix.transpose_mul, Matrix.mul_sub,
      Matrix.mul_one, ← Matrix.mul_assoc ((1 - K * H) * P), hkey]
    abel
  rw [hJ]
  exact (hP.mul_mul_conjTranspose_same _).add (hR.posSemidef.mul_mul_conjTranspose_same _)

lemma lidarR_posDef (s : UKF ℝ) (hx : s.std_laspx_ ≠ 0) (hy : s.std_laspy_ ≠ 0) :
    (lidarR s).PosDef := by
  have e : lidarR s =
      Matrix.diagonal ![s.std_laspx_ * s.std_laspx_, s.std_laspy_ * s.std_laspy_] := by
    ext i j
    fin_cases i <;> fin_cases j <;> rfl
  rw [e, Matrix.posDef_diagonal_iff]
  intro i
  fin_cases i
  · exact mul_self_pos.mpr hx
  · exact mul_self_pos.mpr hy

lemma updateLidar_posSemidef (s : UKF ℝ) (z : Fin 2 → ℝ) (hP : s.P_.PosSemidef)
    (hx : s.std_laspx_ ≠ 0) (hy : s.std_laspy_ ≠ 0) : (UpdateLidar s z).P_.PosSemidef := by
  have h := joseph_posSemidef s.P_ lidarH (lidarR s) hP (lidarR_posDef s hx hy)
  rw [← inverse2_eq_inv] at h
  exact h

/-! ### A positive-definite covariance whose predicted covariance has a negative entry -/

lemma posSemidef_diag_nonneg {n : ℕ} (A : Matrix (Fin n) (Fin n) ℝ) (hA : A.PosSemidef)
    (i : Fin n) : 0 ≤ A i i := by
  have h := hA.2 (Pi.single i 1)
  simpa [Matrix.mulVec_single, Matrix.single_dotProduct] using h

lemma posDef_mul_transpose {n : ℕ} (L : Matrix (Fin n) (Fin n) ℝ)
    (htri : ∀ i j, i < j → L i j = 0) (hpos : ∀ i, 0 < L i i) : (L * Lᵀ).PosDef := by
  have hdet : L.det ≠ 0 := by
    have hlow : Matrix.BlockTriangular L (OrderDual.toDual : Fin n → (Fin n)ᵒᵈ) :=
      fun i j hij => htri i j hij
    rw [Matrix.det_of_lowerTriangular _ hlow]
    exact Finset.prod_ne_zero_iff.mpr (fun i _ => ne_of_gt (hpos i))
  refine ⟨?_, fun x hx => ?_⟩
  · show (L * Lᵀ)ᴴ = L * Lᵀ
    rw [Matrix.conjTranspose_eq_transpose_of_trivial, Matrix.transpose_mul,
      Matrix.transpose_transpose]
  · have hne : Lᵀ *ᵥ x ≠ 0 := by
      intro h0
      apply hx
      exact Matrix.eq_zero_of_mulVec_eq_zero (by rwa [Matrix.det_transpose]) h0
    have e : star x ⬝ᵥ (L * Lᵀ) *ᵥ x = (Lᵀ *ᵥ x) ⬝ᵥ (Lᵀ *ᵥ x) := by
      rw [← Matrix.mulVec_mulVec, Matrix.dotProduct_mulVec]
      simp only [Matrix.mulVec_transpose, star_trivial]
    rw [e]
    have hnn : ∀ i, 0 ≤ (Lᵀ *ᵥ x) i * (Lᵀ *ᵥ x) i := fun i => mul_self_nonneg _
    obtain ⟨i, hi⟩ := Function.ne_iff.mp hne
    exact Finset.sum_pos' (fun i _ => hnn i) ⟨i, Finset.mem_univ i, mul_self_pos.mpr hi⟩

lemma heading_coupled_factor (t : ℝ) (ht : 0 < t) :
    (∀ i j : Fin n_x, i < j →
      (!![14 / 15, 0, 0, 0, 0; 0, 14 / 15, 0, 0, 0; 0, 0, 14 / 15, 0, 0; t, t, t, t, 0;
        0, 0, 0, 0, 1 / 10000] : Matrix (Fin n_x) (Fin n_x) ℝ) i j = 0) ∧
    (∀ i : Fin n_x, 0 <
      (!![14 / 15, 0, 0, 0, 0; 0, 14 / 15, 0, 0, 0; 0, 0, 14 / 15, 0, 0; t, t, t, t, 0;
        0, 0, 0, 0, 1 / 10000] : Matrix (Fin n_x) (Fin n_x) ℝ) i i) ∧
    (!![14 / 15, 0, 0, 0, 0; 0, 14 / 15, 0, 0, 0; 0, 0, 14 / 15, 0, 0; t, t, t, t, 0;
        0, 0, 0, 0, 1 / 10000] : Matrix (Fin n_x) (Fin n_x) ℝ) *
      (!![14 / 15, 0, 0, 0, 0; 0, 14 / 15, 0, 0, 0; 0, 0, 14 / 15, 0, 0; t, t, t, t, 0;
        0, 0, 0, 0, 1 / 10000] : Matrix (Fin n_x) (Fin n_x) ℝ)ᵀ =
      !![196 / 225, 0, 0, 14 / 15 * t, 0;
        0, 196 / 225, 0, 14 / 15 * t, 0;
        0, 0, 196 / 225, 14 / 15 * t, 0;
        14 / 15 * t, 14 / 15 * t, 14 / 15 * t, 4 * (t * t), 0;
        0, 0, 0, 0, 1 / 100000000] := by
  refine ⟨?_, ?_, ?_⟩
  · intro i j hij
    fin_cases i <;> fin_cases j <;> first | rfl | exact absurd hij (by decide)
  · intro i
    fin_cases i
    · show (0 : ℝ) < 14 / 15
      norm_num
    · show (0 : ℝ) < 14 / 15
      norm_num
    · show (0 : ℝ) < 14 / 15
      norm_num
    · exact ht
    · show (0 : ℝ) < 1 / 10000
      norm_num
  · ext i j
    rw [Matrix.mul_apply]
    show ∑ c : Fin 5, _ = _
    rw [Fin.sum_univ_five]
    fin_cases i <;> fin_cases j <;>
      simp only [Matrix.transpose_apply] <;>
      first
      | (show (_ : ℝ) * _ + _ * _ + _ * _ + _ * _ + _ * _ = _; norm_num; done)
      | (show (_ : ℝ) * _ + _ * _ + _ * _ + _ * _ + _ * _ = _; norm_num; ring)

lemma heading_coupled_entries (t : ℝ) (L : Matrix (Fin n_aug) (Fin n_aug) ℝ)
    (hL : L = augBlock (!![14 / 15, 0, 0, 0, 0; 0, 14 / 15, 0, 0, 0; 0, 0, 14 / 15, 0, 0;
        t, t, t, t, 0; 0, 0, 0, 0, 1 / 10000] : Matrix (Fin n_x) (Fin n_x) ℝ)
      (3 / 10) (3 / 10)) :
    L 0 0 = 14 / 15 ∧ L 0 1 = 0 ∧ L 0 2 = 0 ∧ L 0 3 = 0 ∧ L 0 4 = 0 ∧ L 0 5 = 0 ∧ L 0 6 = 0 ∧
    L 1 0 = 0 ∧ L 1 1 = 14 / 15 ∧ L 1 2 = 0 ∧ L 1 3 = 0 ∧ L 1 4 = 0 ∧ L 1 5 = 0 ∧ L 1 6 = 0 ∧
    L 2 0 = 0 ∧ L 2 1 = 0 ∧ L 2 2 = 14 / 15 ∧ L 2 3 = 0 ∧ L 2 4 = 0 ∧ L 2 5 = 0 ∧ L 2 6 = 0 ∧
    L 3 0 = t ∧ L 3 1 = t ∧ L 3 2 = t ∧ L 3 3 = t ∧ L 3 4 = 0 ∧ L 3 5 = 0 ∧ L 3 6 = 0 ∧
    L 4 0 = 0 ∧ L 4 1 = 0 ∧ L 4 2 = 0 ∧ L 4 3 = 0 ∧ L 4 4 = 1 / 10000 ∧ L 4 5 = 0 ∧ L 4 6 = 0 ∧
    L 5 0 = 0 ∧ L 5 1 = 0 ∧ L 5 2 = 0 ∧ L 5 3 = 0 ∧ L 5 4 = 0 ∧ L 5 5 = 3 / 10 ∧ L 5 6 = 0 ∧
    L 6 0 = 0 ∧ L 6 1 = 0 ∧ L 6 2 = 0 ∧ L 6 3 = 0 ∧ L 6 4 = 0 ∧ L 6 5 = 0 ∧ L 6 6 = 3 / 10 := by
  subst hL
  exact ⟨rfl, rfl, rfl, rfl, rfl, rfl, rfl, rfl, rfl, rfl, rfl, rfl, rfl, rfl, rfl, rfl, rfl,
    rfl, rfl, rfl, rfl, rfl, rfl, rfl, rfl, rfl, rfl, rfl, rfl, rfl, rfl, rfl, rfl, rfl,
    rfl, rfl, rfl, rfl, rfl, rfl, rfl, rfl, rfl, rfl, rfl, rfl, rfl, rfl, rfl⟩

lemma heading_coupled_rows (M : MathEnv ℝ) (hM : M.IsReal) (s : UKF ℝ)
    (hx : s.x_ = ![0, 0, 1, 0, 0]) (hl : s.lambda_ = 3 - (n_aug : ℝ))
    (t : ℝ) (hqt : Real.sqrt 3 * t = Real.pi)
    (X : Matrix (Fin n_x) (Fin n_sig) ℝ)
    (hX : X = predictSigmaPoints M 1 (augmentedSigmaPoints M s
      (augBlock (!![14 / 15, 0, 0, 0, 0; 0, 14 / 15, 0, 0, 0; 0, 0, 14 / 15, 0, 0;
        t, t, t, t, 0; 0, 0, 0, 0, 1 / 10000] : Matrix (Fin n_x) (Fin n_x) ℝ) (3 / 10) (3 / 10)))) :
    X 0 0 = 1 ∧
    X 0 1 = 14 / 15 * Real.sqrt 3 - 1 ∧
    X 0 2 = -1 ∧
    X 0 3 = -1 - 14 / 15 * Real.sqrt 3 ∧
    X 0 4 = -1 ∧
    X 0 5 = 1 ∧
    X 0 6 = 1 + 3 / 20 * Real.sqrt 3 ∧
    X 0 7 = 1 ∧
    X 0 8 = -(14 / 15 * Real.sqrt 3) - 1 ∧
    X 0 9 = -1 ∧
    X 0 10 = -1 + 14 / 15 * Real.sqrt 3 ∧
    X 0 11 = -1 ∧
    X 0 12 = 1 ∧
    X 0 13 = 1 - 3 / 20 * Real.sqrt 3 ∧
    X 0 14 = 1 ∧
    X 1 0 = 0 ∧
    X 1 1 = 0 ∧
    X 1 2 = 14 / 15 * Real.sqrt 3 ∧
    X 1 3 = 0 ∧
    X 1 4 = 0 ∧
    X 1 5 = 0 ∧
    X 1 6 = 0 ∧
    X 1 7 = 0 ∧
    X 1 8 = 0 ∧
    X 1 9 = -(14 / 15 * Real.sqrt 3) ∧
    X 1 10 = 0 ∧
    X 1 11 = 0 ∧
    X 1 12 = 0 ∧
    X 1 13 = 0 ∧
    X 1 14 = 0 := by
  obtain ⟨a0, a1, a2, a3, a4, a5, a6⟩ := augmentedMean_apply s
  obtain ⟨l00, l01, l02, l03, l04, l05, l06, l10, l11, l12, l13, l14, l15, l16,
    l20, l21, l22, l23, l24, l25, l26, l30, l31, l32, l33, l34, l35, l36,
    l40, l41, l42, l43, l44, l45, l46, l50, l51, l52, l53, l54, l55, l56,
    l60, l61, l62, l63, l64, l65, l66⟩ := heading_coupled_entries t _ rfl
  have hk : ¬ (|Real.sqrt 3 * (1 / 10000)| > 1 / 1000) := by
    have h3 : Real.sqrt 3 ≤ 10 := by
      rw [Real.sqrt_le_iff]
      norm_num
    rw [abs_of_nonneg (by positivity)]
    linarith
  have hk2 : ¬ (|-(Real.sqrt 3 * (1 / 10000))| > 1 / 1000) := by
    rw [abs_neg]
    exact hk
  have e3 : (3 : ℝ) - (n_aug : ℝ) + (n_aug : ℝ) = 3 := by ring
  subst hX
  refine ⟨?_, ?_, ?_, ?_, ?_, ?_, ?_, ?_, ?_, ?_, ?_, ?_, ?_, ?_, ?_, ?_, ?_, ?_, ?_, ?_,
    ?_, ?_, ?_, ?_, ?_, ?_, ?_, ?_, ?_, ?_⟩ <;>
  · simp only [predictSigmaPoints, predictSigmaPoint, augmentedSigmaPoints_cols,
      a0, a1, a2, a3, a4, a5, a6, hx, hl, hM.1, hM.2.1, hM.2.2.1, e3,
      l00, l01, l02, l03, l04, l05, l06, l10, l11, l12, l13, l14, l15, l16,
      l20, l21, l22, l23, l24, l25, l26, l30, l31, l32, l33, l34, l35, l36,
      l40, l41, l42, l43, l44, l45, l46, l50, l51, l52, l53, l54, l55, l56,
      l60, l61, l62, l63, l64, l65, l66, mul_zero, add_zero, sub_zero, zero_add, zero_sub, hqt,
      Real.cos_pi, Real.sin_pi, Real.cos_neg, Real.sin_neg, Real.cos_zero, Real.sin_zero,
      Matrix.cons_val_zero, Matrix.cons_val_one, Matrix.head_cons, Matrix.cons_val_two,
      Matrix.cons_val_three, Matrix.cons_val_four, hk, hk2, if_false, abs_zero]
    try norm_num
    try exact fun h => absurd h hk
    try ring

lemma heading_coupled_prediction (M : MathEnv ℝ) (hM : M.IsReal) (s : UKF ℝ)
    (t : ℝ) (ht : 0 < t) (hqt : Real.sqrt 3 * t = Real.pi)
    (hx : s.x_ = ![0, 0, 1, 0, 0])
    (hP : s.P_ = !![196 / 225, 0, 0, 14 / 15 * t, 0;
        0, 196 / 225, 0, 14 / 15 * t, 0;
        0, 0, 196 / 225, 14 / 15 * t, 0;
        14 / 15 * t, 14 / 15 * t, 14 / 15 * t, 4 * (t * t), 0;
        0, 0, 0, 0, 1 / 100000000])
    (ha : s.std_a_ = 3 / 10) (hy : s.std_yawdd_ = 3 / 10)
    (hl : s.lambda_ = 3 - (n_aug : ℝ)) (hw : s.weights_ = mkWeights n_aug (3 - (n_aug : ℝ))) :
    s.P_.PosDef ∧
    (Prediction M 1 s).x_ 0 = -5 / 3 ∧ (Prediction M 1 s).x_ 1 = 0 ∧
    (Prediction M 1 s).P_ 0 0 = -47 / 3600 ∧
    (Prediction M 1 s).P_ 0 1 = 0 ∧
    (Prediction M 1 s).P_ 1 0 = 0 ∧
    (Prediction M 1 s).P_ 1 1 = 196 / 225 := by
  obtain ⟨htri, hpos, hLL⟩ := heading_coupled_factor t ht
  have hq : Real.sqrt 3 * Real.sqrt 3 = 3 := Real.mul_self_sqrt (by norm_num)
  have hsq : ∀ x : ℝ, 0 < x → M.sqrt (x * x) = x := by
    intro x hx0
    rw [hM.1]
    exact Real.sqrt_mul_self (le_of_lt hx0)
  have hPD : s.P_.PosDef := by
    rw [hP, ← hLL]
    exact posDef_mul_transpose _ htri hpos
  have hllt : llt M (augmentedCovariance s) =
      augBlock (!![14 / 15, 0, 0, 0, 0; 0, 14 / 15, 0, 0, 0; 0, 0, 14 / 15, 0, 0;
        t, t, t, t, 0; 0, 0, 0, 0, 1 / 10000] : Matrix (Fin n_x) (Fin n_x) ℝ)
        (3 / 10) (3 / 10) := by
    rw [augmentedCovariance_eq_augBlock, hP, ← hLL, ha, hy]
    exact augBlock_factor M hsq _ _ _ htri hpos (by norm_num) (by norm_num)
  have hX : (Prediction M 1 s).Xsig_pred_ =
      predictSigmaPoints M 1 (augmentedSigmaPoints M s
        (augBlock (!![14 / 15, 0, 0, 0, 0; 0, 14 / 15, 0, 0, 0; 0, 0, 14 / 15, 0, 0;
          t, t, t, t, 0; 0, 0, 0, 0, 1 / 10000] : Matrix (Fin n_x) (Fin n_x) ℝ)
          (3 / 10) (3 / 10))) := by
    show predictSigmaPoints M _ (augmentedSigmaPoints M s (llt M (augmentedCovariance s))) = _
    rw [hllt]
  have hr := heading_coupled_rows M hM s hx hl t hqt _ hX
  have hmean : ∀ a : Fin n_x, (Prediction M 1 s).x_ a =
      ∑ i : Fin n_sig, s.weights_ i * (Prediction M 1 s).Xsig_pred_ a i := fun _ => rfl
  have hm0 : (Prediction M 1 s).x_ 0 = -5 / 3 := by
    rw [hmean, sum_fin15, hw]
    simp only [hr]
    simp [mkWeights_ne_zero, mkWeights_zero]
    norm_num
    try ring
  have hm1 : (Prediction M 1 s).x_ 1 = 0 := by
    rw [hmean, sum_fin15, hw]
    simp only [hr]
    simp [mkWeights_ne_zero, mkWeights_zero]
    try ring
  have h03 : (0 : Fin n_x) ≠ 3 := by decide
  have h13 : (1 : Fin n_x) ≠ 3 := by decide
  have hcov : ∀ a b : Fin n_x, a ≠ 3 → b ≠ 3 → (Prediction M 1 s).P_ a b =
      ∑ i : Fin n_sig, s.weights_ i *
        ((Prediction M 1 s).Xsig_pred_ a i - (Prediction M 1 s).x_ a) *
        ((Prediction M 1 s).Xsig_pred_ b i - (Prediction M 1 s).x_ b) := by
    intro a b hane hbne
    show predictedCovariance M _ _ _ a b = _
    rw [predictedCovariance_apply]
    refine Finset.sum_congr rfl (fun i _ => ?_)
    rw [stateDiff_of_ne _ _ _ _ _ hane, stateDiff_of_ne _ _ _ _ _ hbne]
    rfl
  refine ⟨hPD, hm0, hm1, ?_, ?_, ?_, ?_⟩
  · rw [hcov 0 0 h03 h03, hm0, sum_fin15, hw]
    simp only [hr]
    simp [mkWeights_ne_zero, mkWeights_zero]
    norm_num
    linear_combination (6353 / 10800 : ℝ) * hq
  · rw [hcov 0 1 h03 h13, hm0, hm1, sum_fin15, hw]
    simp only [hr]
    simp [mkWeights_ne_zero, mkWeights_zero]
    try ring
  · rw [hcov 1 0 h13 h03, hm0, hm1, sum_fin15, hw]
    simp only [hr]
    simp [mkWeights_ne_zero, mkWeights_zero]
    try ring
  · rw [hcov 1 1 h13 h13, hm1, sum_fin15, hw]
    simp only [hr]
    simp [mkWeights_ne_zero, mkWeights_zero]
    norm_num
    linear_combination (196 / 675 : ℝ) * hq

lemma prediction_zero_dt_diagonal (s : UKF ℝ)
    (hP : s.P_ = Matrix.diagonal ![225 / 10000, 225 / 10000, 1, 1, 1])
    (ha : s.std_a_ = 3 / 10) (hy : s.std_yawdd_ = 3 / 10)
    (hl : s.lambda_ = 3 - (n_aug : ℝ)) (hw : s.weights_ = mkWeights n_aug (3 - (n_aug : ℝ))) :
    (Prediction (⟨Real.sqrt, Real.sin, Real.cos, Real.pi, Real.pi_pos⟩ : MathEnv ℝ) 0 s).P_ =
      s.P_ := by
  have e3 : s.lambda_ + (n_aug : ℝ) = 3 := by
    rw [hl]
    ring
  have hPD : s.P_.PosDef := by
    rw [hP, Matrix.posDef_diagonal_iff]
    intro i
    fin_cases i <;> norm_num
  refine (prediction_zero_dt (⟨Real.sqrt, Real.sin, Real.cos, Real.pi, Real.pi_pos⟩ : MathEnv ℝ)
    s (3 - (n_aug : ℝ)) (by norm_num) hw ?_ (Real.sqrt_nonneg _)
    (llt_augmentedCovariance _ ⟨rfl, rfl, rfl, rfl⟩ s hPD (by rw [ha]; norm_num)
      (by rw [hy]; norm_num)) ?_).2
  · show Real.sqrt (s.lambda_ + (n_aug : ℝ)) * Real.sqrt (s.lambda_ + (n_aug : ℝ)) = _
    rw [e3]
    norm_num
  · intro i
    show Real.sqrt (s.lambda_ + (n_aug : ℝ)) * _ ≤ Real.pi
    rw [e3, scenarioB_augCov s hP ha hy, scenarioB_llt _ ⟨rfl, rfl, rfl, rfl⟩]
    have h3 : Real.sqrt 3 ≤ Real.pi := by
      rw [Real.sqrt_le_iff]
      exact ⟨le_of_lt Real.pi_pos, by nlinarith [Real.pi_gt_three]⟩
    by_cases h : (3 : Fin n_aug) = i
    · subst h
      rw [Matrix.diagonal_apply_eq]
      simpa using h3
    · rw [Matrix.diagonal_apply_ne _ h]
      simpa using le_of_lt Real.pi_pos

/-! ### A factorization that fails and one that succeeds, with the same cycle outcome -/

/-- C1: the weights built by the constructor are `weight[0] = lambda/(lambda+n_aug)` and
`weight[i] = 1/(2(lambda+n_aug))` for `i = 1..2*n_aug`, and the `2*n_aug+1` weights sum
to exactly 1, for every `n_aug` (in particular every `n_aug ≥ 1`) and every `lambda` with
`lambda + n_aug ≠ 0`; the
configured estimator (`n_aug = 7`, `lambda = 3 - n_aug`) carries exactly these weights,
`-4/3` and fourteen times `1/6`. -/
theorem weights_sum_one (n : ℕ) (lambda : α) (h : lambda + (n : α) ≠ 0) :
    mkWeights n lambda 0 = lambda / (lambda + n) ∧
    (∀ i : Fin (2 * n + 1), i ≠ 0 → mkWeights n lambda i = 1 / (2 * (lambda + n))) ∧
    ∑ i : Fin (2 * n + 1), mkWeights n lambda i = 1 ∧
    (∀ (x0 : Fin n_x → α) (P0 : Matrix (Fin n_x) (Fin n_x) α)
        (X0 : Matrix (Fin n_x) (Fin n_sig) α),
      (new x0 P0 X0).weights_ = mkWeights n_aug (3 - (n_aug : α)) ∧
      (new x0 P0 X0).lambda_ = 3 - (n_aug : α) ∧
      (new x0 P0 X0).weights_ 0 = -4 / 3 ∧
      (∀ i : Fin n_sig, i ≠ 0 → (new x0 P0 X0).weights_ i = 1 / 6) ∧
      ∑ i : Fin n_sig, (new x0 P0 X0).weights_ i = 1) := by
  have key : ∀ (m : ℕ) (l : α), l + (m : α) ≠ 0 →
      ∑ i : Fin (2 * m + 1), mkWeights m l i = 1 := by
    intro m l hl
    rw [Fin.sum_univ_succ]
    have h0 : mkWeights m l 0 = l / (l + m) := by simp [mkWeights]
    have hs : ∀ i : Fin (2 * m), mkWeights m l i.succ = (1 / 2) / (l + (m : α)) := by
      intro i
      simp [mkWeights, Function.update_noteq (Fin.succ_ne_zero i)]
    rw [h0, Finset.sum_congr rfl (fun i _ => hs i)]
    simp only [Finset.sum_const, Finset.card_univ, Fintype.card_fin, nsmul_eq_mul]
    push_cast
    field_simp
    ring
  have h7 : (3 : α) - ((n_aug : ℕ) : α) + ((n_aug : ℕ) : α) ≠ 0 := by norm_num
  refine ⟨by simp [mkWeights], ?_, key n lambda h, ?_⟩
  · intro i hi
    simp only [mkWeights, Function.update_noteq hi]
    field_simp
  · intro x0 P0 X0
    refine ⟨rfl, rfl, ?_, ?_, key n_aug _ h7⟩
    · simp only [new, mkWeights, Function.update_same]
      norm_num
    · intro i hi
      simp only [new, mkWeights, Function.update_noteq hi]
      norm_num

/-- Witness of `weights_sum_one` at `n_aug = 7`, `lambda = -4` over the rationals. -/
theorem weights_sum_one_witness :
    mkWeights 7 (-4 : ℚ) 0 = (-4 : ℚ) / (-4 + (7 : ℕ)) ∧
    ∑ i : Fin (2 * 7 + 1), mkWeights 7 (-4 : ℚ) i = 1 :=
  have h := weights_sum_one 7 (-4 : ℚ) (by norm_num)
  ⟨h.1, h.2.2.1⟩

/-! ### C2: initialization from a lidar measurement -/

/-- C2: on an uninitialized estimator a lidar measurement `(z 0, z 1)` with any timestamp
`t` sets the mean to `(z 0, z 1, 0, 0, 0)`, the covariance to
`diag(std_laspx^2, std_laspy^2, 1, 1, 1)`, marks the estimator initialized and changes
nothing else but the stored time: no prediction or correction runs, and the result does
not depend on the previous mean or covariance. For the constructed estimator the
covariance is `diag(0.0225, 0.0225, 1, 1, 1)`. -/
theorem init_lidar [FloorRing α] (M : MathEnv α) (s : UKF α) (t : ℤ) (z : Fin 2 → α)
    (h : s.is_initialized_ = false) :
    ProcessMeasurement M s (.LASER t z) =
      { s with
        time_us_ := t
        x_ := ![z 0, z 1, 0, 0, 0]
        P_ := Matrix.diagonal ![s.std_laspx_ ^ 2, s.std_laspy_ ^ 2, 1, 1, 1]
        is_initialized_ := true } ∧
    (∀ (x0 : Fin n_x → α) (P0 : Matrix (Fin n_x) (Fin n_x) α)
        (X0 : Matrix (Fin n_x) (Fin n_sig) α),
      (ProcessMeasurement M (new x0 P0 X0) (.LASER t z)).x_ = ![z 0, z 1, 0, 0, 0] ∧
      (ProcessMeasurement M (new x0 P0 X0) (.LASER t z)).P_ =
        Matrix.diagonal ![225 / 10000, 225 / 10000, 1, 1, 1] ∧
      (ProcessMeasurement M (new x0 P0 X0) (.LASER t z)).is_initialized_ = true ∧
      (ProcessMeasurement M (new x0 P0 X0) (.LASER t z)).Xsig_pred_ = X0) := by
  constructor
  · exact processMeasurement_uninit_laser M s t z h
  · intro x0 P0 X0
    refine ⟨by simp [ProcessMeasurement, new], ?_, by simp [ProcessMeasurement, new],
      by simp [ProcessMeasurement, new]⟩
    simp only [ProcessMeasurement, new, diag5_eq]
    norm_num

/-- Witness of `init_lidar` (Scenario A): the constructed estimator and the lidar
measurement `(1.0, 1.0)` at `t = 0` over the rationals; the mean becomes
`(1, 1, 0, 0, 0)`. -/
theorem init_lidar_witness :
    (ProcessMeasurement (⟨id, id, id, 3, by norm_num⟩ : MathEnv ℚ) (new 0 0 0)
      (.LASER 0 ![1, 1])).x_ = ![1, 1, 0, 0, 0] := by
  have h := (init_lidar (⟨id, id, id, 3, by norm_num⟩ : MathEnv ℚ) (new 0 0 0) 0 ![1, 1]
    rfl).1
  rw [h]
  simp

/-! ### C3: initialization from a radar measurement -/

/-- C3: on an uninitialized estimator a radar measurement `(r, phi, rd)` sets the mean
to `(r cos phi, r sin phi, rd, phi, phi)`, the covariance to
`diag(std_radr^2, std_radr^2, std_radrd^2, std_radphi^2, std_radphi^2)`, marks the
estimator initialized and changes nothing else but the stored time (no prediction or
correction runs). -/
theorem init_radar [FloorRing α] (M : MathEnv α) (s : UKF α) (t : ℤ) (z : Fin 3 → α)
    (h : s.is_initialized_ = false) :
    ProcessMeasurement M s (.RADAR t z) =
      { s with
        time_us_ := t
        x_ := ![z 0 * M.cos (z 1), z 0 * M.sin (z 1), z 2, z 1, z 1]
        P_ := Matrix.diagonal ![s.std_radr_ ^ 2, s.std_radr_ ^ 2, s.std_radrd_ ^ 2,
          s.std_radphi_ ^ 2, s.std_radphi_ ^ 2]
        is_initialized_ := true } :=
  processMeasurement_uninit_radar M s t z h

/-- Witness of `init_radar`: the constructed estimator and the radar measurement
`(2, 0, 1)` over the reals; the mean becomes `(2, 0, 1, 0, 0)`. -/
theorem init_radar_witness :
    (ProcessMeasurement (⟨Real.sqrt, Real.sin, Real.cos, Real.pi, Real.pi_pos⟩ : MathEnv ℝ)
      (new 0 0 0) (.RADAR 0 ![2, 0, 1])).x_ = ![2, 0, 1, 0, 0] := by
  have h := init_radar (⟨Real.sqrt, Real.sin, Real.cos, Real.pi, Real.pi_pos⟩ : MathEnv ℝ)
    (new 0 0 0) 0 ![2, 0, 1] rfl
  rw [h]
  simp

/-! ### C4: predict-then-correct dispatch -/

/-- C4: on an initialized estimator, `ProcessMeasurement` stores the measurement's
timestamp as the new last-update time and returns exactly the state obtained by
`Prediction` with `delta_t = (timestamp - previous time) / 1000000` followed by one
corrector: `UpdateLidar` for a lidar measurement, `UpdateRadar` for a radar one. -/
theorem process_initialized [FloorRing α] (M : MathEnv α) (s : UKF α)
    (h : s.is_initialized_ = true) :
    (∀ (t : ℤ) (z : Fin 2 → α),
      ProcessMeasurement M s (.LASER t z) =
        UpdateLidar (Prediction M (((t - s.time_us_ : ℤ) : α) / 1000000)
          { s with time_us_ := t }) z ∧
      (ProcessMeasurement M s (.LASER t z)).time_us_ = t) ∧
    (∀ (t : ℤ) (z : Fin 3 → α),
      ProcessMeasurement M s (.RADAR t z) =
        UpdateRadar (Prediction M (((t - s.time_us_ : ℤ) : α) / 1000000)
          { s with time_us_ := t }) z ∧
      (ProcessMeasurement M s (.RADAR t z)).time_us_ = t) := by
  constructor
  · intro t z
    have e := processMeasurement_initialized M s (.LASER t z) h
    exact ⟨e, by rw [e]; rfl⟩
  · intro t z
    have e := processMeasurement_initialized M s (.RADAR t z) h
    exact ⟨e, by rw [e]; rfl⟩

/-- Witness of `process_initialized`: the initialized estimator with zero mean and
covariance over the rationals; a radar measurement at `t = 7` stores the time 7. -/
theorem process_initialized_witness :
    (ProcessMeasurement (⟨id, id, id, 3, by norm_num⟩ : MathEnv ℚ)
      { new 0 0 0 with is_initialized_ := true } (.RADAR 7 ![1, 0, 0])).time_us_ = 7 :=
  ((process_initialized (⟨id, id, id, 3, by norm_num⟩ : MathEnv ℚ)
    { new 0 0 0 with is_initialized_ := true } rfl).2 7 ![1, 0, 0]).2

/-! ### C5: Scenario B -/

/-- C5 (Scenario B): from the state initialized by the lidar measurement `(1.0, 1.0)` at
`t = 0`, the lidar measurement `(1.1, 1.05)` at `t = 100000` µs runs `Prediction` with
`delta_t = 0.1` and then `UpdateLidar`; the resulting position satisfies
`1.0 ≤ px ≤ 1.1` and `1.0 ≤ py ≤ 1.05`, and the covariance entries `P(0,0)` and `P(1,1)`
after the correction are strictly smaller than after `Prediction`. -/
theorem scenarioB (x0 : Fin n_x → ℝ) (P0 : Matrix (Fin n_x) (Fin n_x) ℝ)
    (X0 : Matrix (Fin n_x) (Fin n_sig) ℝ) :
    let M : MathEnv ℝ := ⟨Real.sqrt, Real.sin, Real.cos, Real.pi, Real.pi_pos⟩
    let sA := ProcessMeasurement M (new x0 P0 X0) (.LASER 0 ![1, 1])
    let sP := Prediction M (1 / 10) { sA with time_us_ := 100000 }
    let sB := ProcessMeasurement M sA (.LASER 100000 ![11 / 10, 105 / 100])
    sB = UpdateLidar sP ![11 / 10, 105 / 100] ∧
    1 ≤ sB.x_ 0 ∧ sB.x_ 0 ≤ 11 / 10 ∧ 1 ≤ sB.x_ 1 ∧ sB.x_ 1 ≤ 105 / 100 ∧
    sB.P_ 0 0 < sP.P_ 0 0 ∧ sB.P_ 1 1 < sP.P_ 1 1 := by
  intro M sA sP sB
  have hB : sB = UpdateLidar sP ![11 / 10, 105 / 100] :=
    scenarioA_next M x0 P0 X0 (.LASER 100000 ![11 / 10, 105 / 100]) rfl
  obtain ⟨p0, p1, p00, p01, p10, p11, hlx, hly⟩ :=
    scenarioA_prediction M ⟨rfl, rfl, rfl, rfl⟩ x0 P0 X0 sP rfl
  obtain ⟨u0, u1, u00, u11⟩ := updateLidar_decoupled sP ![11 / 10, 105 / 100] p01 p10
    (by rw [p00, hlx]; norm_num) (by rw [p11, hly]; norm_num)
  rw [p0, p00, hlx] at u0
  rw [p1, p11, hly] at u1
  rw [p00, hlx] at u00
  rw [p11, hly] at u11
  refine ⟨hB, ?_, ?_, ?_, ?_, ?_, ?_⟩
  · rw [hB, u0]; norm_num
  · rw [hB, u0]; norm_num
  · rw [hB, u1]; norm_num
  · rw [hB, u1]; norm_num
  · rw [hB, u00, p00]; norm_num
  · rw [hB, u11, p11]; norm_num

/-! ### C6: propagation with non-positive elapsed time -/

/-- C6 (counterexample): with `delta_t = -1 ≤ 0` the column with speed 1 and heading 0
at the origin is propagated to `px = -1`: the step extrapolates backwards in time and
is not the identity. -/
theorem propagate_negative_dt_moves :
    (-1 : ℝ) ≤ 0 ∧
    predictSigmaPoint (⟨Real.sqrt, Real.sin, Real.cos, Real.pi, Real.pi_pos⟩ : MathEnv ℝ) (-1)
      ![0, 0, 1, 0, 0, 0, 0] = ![-1, 0, 1, 0, 0] ∧
    predictSigmaPoint (⟨Real.sqrt, Real.sin, Real.cos, Real.pi, Real.pi_pos⟩ : MathEnv ℝ) (-1)
      ![0, 0, 1, 0, 0, 0, 0] ≠ ![0, 0, 1, 0, 0] := by
  have e : predictSigmaPoint (⟨Real.sqrt, Real.sin, Real.cos, Real.pi, Real.pi_pos⟩ : MathEnv ℝ)
      (-1) ![0, 0, 1, 0, 0, 0, 0] = ![-1, 0, 1, 0, 0] := by
    norm_num [predictSigmaPoint, vec7_five, vec7_six]
  refine ⟨by norm_num, e, ?_⟩
  rw [e]
  intro h
  have h0 := congrFun h 0
  norm_num at h0

/-- C6 (amended): with `delta_t = 0` (a duplicate timestamp) the propagation step
returns the five state components of every augmented sigma column unchanged, in both
branches and whatever the noise components are. -/
theorem propagate_zero_dt (M : MathEnv α) (c : Fin n_aug → α) :
    predictSigmaPoint M 0 c = ![c 0, c 1, c 2, c 3, c 4] := by
  simp [predictSigmaPoint]

/-! ### C7: heading of the mean -/

/-- C7 (counterexample): the heading of the mean is not wrapped. (i) Initializing with
the radar measurement `(1, 4, 0)` leaves the heading `4 > π`. (ii) Initializing with the
radar measurement `(1, 3, 0)` (bearing inside `(-π, π]`) and processing a second radar
measurement one second later leaves an initialized estimator with heading
`3 + 3 * 1 = 6 > π`. -/
theorem heading_not_wrapped :
    (ProcessMeasurement (⟨Real.sqrt, Real.sin, Real.cos, Real.pi, Real.pi_pos⟩ : MathEnv ℝ)
      (new (0 : Fin n_x → ℝ) 0 0) (.RADAR 0 ![1, 4, 0])).x_ 3 = 4 ∧
    ¬ ((4 : ℝ) ≤ Real.pi) ∧
    (ProcessMeasurement (⟨Real.sqrt, Real.sin, Real.cos, Real.pi, Real.pi_pos⟩ : MathEnv ℝ)
      (new (0 : Fin n_x → ℝ) 0 0) (.RADAR 0 ![1, 3, 0])).x_ 3 = 3 ∧
    (-Real.pi < (3 : ℝ) ∧ (3 : ℝ) ≤ Real.pi) ∧
    (ProcessMeasurement (⟨Real.sqrt, Real.sin, Real.cos, Real.pi, Real.pi_pos⟩ : MathEnv ℝ)
      (ProcessMeasurement (⟨Real.sqrt, Real.sin, Real.cos, Real.pi, Real.pi_pos⟩ : MathEnv ℝ)
      (new (0 : Fin n_x → ℝ) 0 0) (.RADAR 0 ![1, 3, 0]))
      (.RADAR 1000000 ![1, 3, 0])).is_initialized_ = true ∧
    (ProcessMeasurement (⟨Real.sqrt, Real.sin, Real.cos, Real.pi, Real.pi_pos⟩ : MathEnv ℝ)
      (ProcessMeasurement (⟨Real.sqrt, Real.sin, Real.cos, Real.pi, Real.pi_pos⟩ : MathEnv ℝ)
      (new (0 : Fin n_x → ℝ) 0 0) (.RADAR 0 ![1, 3, 0]))
      (.RADAR 1000000 ![1, 3, 0])).x_ 3 = 6 ∧
    ¬ ((6 : ℝ) ≤ Real.pi) := by
  have h4 : ¬ ((4 : ℝ) ≤ Real.pi) := not_le.mpr Real.pi_lt_four
  have h6 : ¬ ((6 : ℝ) ≤ Real.pi) := not_le.mpr (by linarith [Real.pi_lt_four])
  have h3 : -Real.pi < (3 : ℝ) ∧ (3 : ℝ) ≤ Real.pi :=
    ⟨by linarith [Real.pi_pos], le_of_lt Real.pi_gt_three⟩
  have e4 := processMeasurement_uninit_radar (⟨Real.sqrt, Real.sin, Real.cos, Real.pi, Real.pi_pos⟩ : MathEnv ℝ)
    (new (0 : Fin n_x → ℝ) 0 0) 0 ![1, 4, 0] rfl
  have e3 := processMeasurement_uninit_radar (⟨Real.sqrt, Real.sin, Real.cos, Real.pi, Real.pi_pos⟩ : MathEnv ℝ)
    (new (0 : Fin n_x → ℝ) 0 0) 0 ![1, 3, 0] rfl
  refine ⟨by rw [e4]; rfl, h4, by rw [e3]; rfl, h3, ?_, ?_, h6⟩
  · rw [processMeasurement_initialized _ _ _ (by rw [e3])]
    show (ProcessMeasurement _ _ _).is_initialized_ = true
    rw [e3]
  · rw [processMeasurement_initialized _ _ _ (by rw [e3])]
    simp only [UpdateRadar]
    rw [predictedMean_heading _ _ _ (3 - (n_aug : ℝ)) (by norm_num) (by rw [e3]; rfl)]
    rw [e3]
    norm_num [elapsed, MeasurementPackage.timestamp_, new]

/-- C7 (amended): after the initializing call the heading of the mean is `0` for a lidar
measurement, which lies in `(-π, π]`, and the raw bearing for a radar measurement, so it
lies in `(-π, π]` whenever the bearing does. -/
theorem heading_after_init [FloorRing α] (M : MathEnv α) (s : UKF α)
    (h : s.is_initialized_ = false) :
    (∀ (t : ℤ) (z : Fin 2 → α),
      (ProcessMeasurement M s (.LASER t z)).is_initialized_ = true ∧
      (ProcessMeasurement M s (.LASER t z)).x_ 3 = 0 ∧
      -M.M_PI < (ProcessMeasurement M s (.LASER t z)).x_ 3 ∧
      (ProcessMeasurement M s (.LASER t z)).x_ 3 ≤ M.M_PI) ∧
    (∀ (t : ℤ) (z : Fin 3 → α),
      (ProcessMeasurement M s (.RADAR t z)).is_initialized_ = true ∧
      (ProcessMeasurement M s (.RADAR t z)).x_ 3 = z 1 ∧
      (-M.M_PI < z 1 → z 1 ≤ M.M_PI →
        -M.M_PI < (ProcessMeasurement M s (.RADAR t z)).x_ 3 ∧
        (ProcessMeasurement M s (.RADAR t z)).x_ 3 ≤ M.M_PI)) := by
  have hpi := M.M_PI_pos
  constructor
  · intro t z
    rw [processMeasurement_uninit_laser M s t z h]
    refine ⟨rfl, rfl, ?_, ?_⟩
    · show -M.M_PI < 0
      linarith
    · show (0 : α) ≤ M.M_PI
      linarith
  · intro t z
    rw [processMeasurement_uninit_radar M s t z h]
    exact ⟨rfl, rfl, fun h1 h2 => ⟨h1, h2⟩⟩

/-- Witness of `heading_after_init`: the constructed estimator over the rationals (with
`M_PI` replaced by `3`) and the lidar measurement `(1, 1)`: the heading is `0`. -/
theorem heading_after_init_witness :
    (ProcessMeasurement (⟨id, id, id, 3, by norm_num⟩ : MathEnv ℚ) (new 0 0 0)
      (.LASER 0 ![1, 1])).x_ 3 = 0 :=
  ((heading_after_init (⟨id, id, id, 3, by norm_num⟩ : MathEnv ℚ) (new 0 0 0) rfl).1 0
    ![1, 1]).2.1

/-! ### C8: radar correction -/

/-- C8 (the code at the failing input): after initializing with the lidar measurement
`(1, 1)` at `t = 0`, the radar measurement `(5, 0, 0)` at `t = 100000` µs leaves exactly
the predicted state: `UpdateRadar` changes nothing, the position stays `(1, 1)` although
the radar reports range 5 at bearing 0, and a different radar reading `(1, 1, 1)` with the
same timestamp gives the same state. -/
theorem updateRadar_leaves_prediction :
    (ProcessMeasurement (⟨Real.sqrt, Real.sin, Real.cos, Real.pi, Real.pi_pos⟩ : MathEnv ℝ)
      (ProcessMeasurement (⟨Real.sqrt, Real.sin, Real.cos, Real.pi, Real.pi_pos⟩ : MathEnv ℝ)
      (new (0 : Fin n_x → ℝ) 0 0) (.LASER 0 ![1, 1]))
      (.RADAR 100000 ![5, 0, 0])) =
      Prediction (⟨Real.sqrt, Real.sin, Real.cos, Real.pi, Real.pi_pos⟩ : MathEnv ℝ) (1 / 10)
        { (ProcessMeasurement (⟨Real.sqrt, Real.sin, Real.cos, Real.pi, Real.pi_pos⟩ : MathEnv ℝ)
      (new (0 : Fin n_x → ℝ) 0 0) (.LASER 0 ![1, 1])) with time_us_ := 100000 } ∧
    (ProcessMeasurement (⟨Real.sqrt, Real.sin, Real.cos, Real.pi, Real.pi_pos⟩ : MathEnv ℝ)
      (ProcessMeasurement (⟨Real.sqrt, Real.sin, Real.cos, Real.pi, Real.pi_pos⟩ : MathEnv ℝ)
      (new (0 : Fin n_x → ℝ) 0 0) (.LASER 0 ![1, 1]))
      (.RADAR 100000 ![5, 0, 0])).x_ 0 = 1 ∧
    (ProcessMeasurement (⟨Real.sqrt, Real.sin, Real.cos, Real.pi, Real.pi_pos⟩ : MathEnv ℝ)
      (ProcessMeasurement (⟨Real.sqrt, Real.sin, Real.cos, Real.pi, Real.pi_pos⟩ : MathEnv ℝ)
      (new (0 : Fin n_x → ℝ) 0 0) (.LASER 0 ![1, 1]))
      (.RADAR 100000 ![5, 0, 0])).x_ 1 = 1 ∧
    (ProcessMeasurement (⟨Real.sqrt, Real.sin, Real.cos, Real.pi, Real.pi_pos⟩ : MathEnv ℝ)
      (ProcessMeasurement (⟨Real.sqrt, Real.sin, Real.cos, Real.pi, Real.pi_pos⟩ : MathEnv ℝ)
      (new (0 : Fin n_x → ℝ) 0 0) (.LASER 0 ![1, 1]))
      (.RADAR 100000 ![5, 0, 0])) =
      (ProcessMeasurement (⟨Real.sqrt, Real.sin, Real.cos, Real.pi, Real.pi_pos⟩ : MathEnv ℝ)
      (ProcessMeasurement (⟨Real.sqrt, Real.sin, Real.cos, Real.pi, Real.pi_pos⟩ : MathEnv ℝ)
      (new (0 : Fin n_x → ℝ) 0 0) (.LASER 0 ![1, 1]))
      (.RADAR 100000 ![1, 1, 1])) := by
  have e : ∀ z : Fin 3 → ℝ, ProcessMeasurement (⟨Real.sqrt, Real.sin, Real.cos, Real.pi, Real.pi_pos⟩ : MathEnv ℝ)
      (ProcessMeasurement (⟨Real.sqrt, Real.sin, Real.cos, Real.pi, Real.pi_pos⟩ : MathEnv ℝ)
      (new (0 : Fin n_x → ℝ) 0 0) (.LASER 0 ![1, 1])) (.RADAR 100000 z) =
      Prediction (⟨Real.sqrt, Real.sin, Real.cos, Real.pi, Real.pi_pos⟩ : MathEnv ℝ) (1 / 10)
        { (ProcessMeasurement (⟨Real.sqrt, Real.sin, Real.cos, Real.pi, Real.pi_pos⟩ : MathEnv ℝ)
      (new (0 : Fin n_x → ℝ) 0 0) (.LASER 0 ![1, 1])) with time_us_ := 100000 } :=
    fun z => scenarioA_next _ _ _ _ (.RADAR 100000 z) rfl
  obtain ⟨p0, p1, -⟩ := scenarioA_prediction (⟨Real.sqrt, Real.sin, Real.cos, Real.pi, Real.pi_pos⟩ : MathEnv ℝ)
    ⟨rfl, rfl, rfl, rfl⟩ 0 0 0 _ rfl
  refine ⟨e _, ?_, ?_, ?_⟩
  · rw [e]; exact p0
  · rw [e]; exact p1
  · rw [e, e]

/-! ### C9: lidar correction -/

/-- C9: with `H` the 2×5 matrix selecting `px` and `py` (so `H x = (x 0, x 1)`) and
`R = diag(std_laspx^2, std_laspy^2)`, `UpdateLidar` computes `y = z - H x`,
`S = H P Hᵀ + R`, `K = P Hᵀ S⁻¹` and leaves the mean `x + K y` and the covariance
`(I - K H) P`, every other member unchanged; `S` is the top-left 2×2 block of `P` plus
`R` and `K` is the first two columns of `P` times `S⁻¹`. Here `S⁻¹` is the inverse
matrix (`S * S⁻¹ = 1`), which exists because `det S ≠ 0`. -/
theorem updateLidar_spec (s : UKF α) (z : Fin 2 → α)
    (hS : ((lidarH : Matrix (Fin 2) (Fin n_x) α) * s.P_ * lidarHᵀ +
      Matrix.diagonal ![s.std_laspx_ ^ 2, s.std_laspy_ ^ 2]).det ≠ 0) :
    let H : Matrix (Fin 2) (Fin n_x) α := lidarH
    let R : Matrix (Fin 2) (Fin 2) α := Matrix.diagonal ![s.std_laspx_ ^ 2, s.std_laspy_ ^ 2]
    let y := z - H *ᵥ s.x_
    let S := H * s.P_ * Hᵀ + R
    let K := s.P_ * Hᵀ * S⁻¹
    UpdateLidar s z = { s with x_ := s.x_ + K *ᵥ y, P_ := (1 - K * H) * s.P_ } ∧
    (∀ x : Fin n_x → α, H *ᵥ x = ![x 0, x 1]) ∧
    S * S⁻¹ = 1 ∧
    S = s.P_.submatrix (Fin.castLE (by decide)) (Fin.castLE (by decide)) + R ∧
    K = s.P_.submatrix id (Fin.castLE (by decide)) * S⁻¹ := by
  intro H R y S K
  have hR : lidarR s = R := by
    ext i j
    fin_cases i <;> fin_cases j <;> simp [lidarR, R, pow_two]
  refine ⟨?_, lidarH_mulVec, ?_, ?_, ?_⟩
  · simp only [UpdateLidar, inverse2_eq_inv, hR]
  · exact Matrix.mul_nonsing_inv S (isUnit_iff_ne_zero.mpr hS)
  · simp only [S, H, lidarH_mul_mul_transpose]
  · simp only [K, H, mul_lidarH_transpose]

/-- Witness of `updateLidar_spec`: identity covariance and the constructor's noise
values over the rationals; the measurement `(1, 1)` moves the mean from the origin to
`(400/409, 400/409, 0, 0, 0)`. -/
theorem updateLidar_spec_witness :
    (UpdateLidar (new (0 : Fin n_x → ℚ) 1 0) ![1, 1]).x_ = ![400 / 409, 400 / 409, 0, 0, 0] := by
  have hdet : ((lidarH : Matrix (Fin 2) (Fin n_x) ℚ) * (new (0 : Fin n_x → ℚ) 1 0).P_ * lidarHᵀ +
      Matrix.diagonal ![(new (0 : Fin n_x → ℚ) 1 0).std_laspx_ ^ 2,
        (new (0 : Fin n_x → ℚ) 1 0).std_laspy_ ^ 2]).det ≠ 0 := by
    rw [lidarH_mul_mul_transpose, Matrix.det_fin_two]
    simp [new, Matrix.one_apply, Fin.ext_iff]
    norm_num
  have h := (updateLidar_spec (new (0 : Fin n_x → ℚ) 1 0) ![1, 1] hdet).1
  rw [h]
  simp only [mul_lidarH_transpose, lidarH_mul_mul_transpose, lidarH_mulVec]
  ext i
  fin_cases i <;>
    simp [new, Matrix.inv_def, Matrix.det_fin_two, Matrix.adjugate_fin_two, Matrix.mulVec,
      Matrix.dotProduct, Matrix.mul_apply, Fin.sum_univ_succ, Matrix.one_apply, Fin.ext_iff] <;>
    norm_num

/-! ### C10: failure conditions -/

/-- C11 (counterexample): the heading difference `d = -π` is left as it is by both loops,
so the normalized value `-π` is not inside `(-π, π]`. -/
theorem normalizeAngle_neg_pi :
    normalizeAngle (⟨Real.sqrt, Real.sin, Real.cos, Real.pi, Real.pi_pos⟩ : MathEnv ℝ)
      (-Real.pi) = -Real.pi ∧
    ¬ (-Real.pi < normalizeAngle
      (⟨Real.sqrt, Real.sin, Real.cos, Real.pi, Real.pi_pos⟩ : MathEnv ℝ) (-Real.pi)) := by
  have e : normalizeAngle (⟨Real.sqrt, Real.sin, Real.cos, Real.pi, Real.pi_pos⟩ : MathEnv ℝ)
      (-Real.pi) = -Real.pi :=
    normalizeAngle_of_mem _ _ (le_refl _) (by show -Real.pi ≤ Real.pi; linarith [Real.pi_pos])
  exact ⟨e, by rw [e]; exact lt_irrefl _⟩

/-- C11 (amended): the angle normalization of `Prediction` maps every angle difference
`d` to a value `n(d)` with `-π ≤ n(d) ≤ π` and `n(d) - d` an integer multiple of `2π`;
the lower bound is strict, `-π < n(d)`, whenever `-π < d`. -/
theorem normalizeAngle_range [FloorRing α] (M : MathEnv α) (d : α) :
    -M.M_PI ≤ normalizeAngle M d ∧ normalizeAngle M d ≤ M.M_PI ∧
    (-M.M_PI < d → -M.M_PI < normalizeAngle M d) ∧
    ∃ k : ℤ, normalizeAngle M d - d = k * (2 * M.M_PI) :=
  normalizeAngle_spec M d

/-- Witness of `normalizeAngle_range`: over the rationals with `M_PI` replaced by `3`,
the difference `10` is above `-3`, so its normalized value is above `-3` and at most
`3`. -/
theorem normalizeAngle_range_witness :
    -3 < normalizeAngle (⟨id, id, id, 3, by norm_num⟩ : MathEnv ℚ) 10 ∧
    normalizeAngle (⟨id, id, id, 3, by norm_num⟩ : MathEnv ℚ) 10 ≤ 3 :=
  have h := normalizeAngle_range (⟨id, id, id, 3, by norm_num⟩ : MathEnv ℚ) 10
  ⟨h.2.2.1 (by norm_num), h.2.1⟩

/-! ### C12: symmetry of the covariance -/

/-- C12: one predict-then-correct cycle leaves a symmetric covariance, for every state
(whatever its covariance and whether or not the Cholesky factorization succeeded), every
elapsed time and every measurement: after `Prediction` followed by `UpdateLidar`, after
`Prediction` followed by `UpdateRadar`, and after any call of `ProcessMeasurement`.
Consequently the covariance is symmetric in every state reached from the constructed
estimator by a non-empty sequence of measurements, the first of which initializes it
(lidar or radar). -/
theorem covariance_symmetric [FloorRing α] (M : MathEnv α) :
    (∀ (s : UKF α) (dt : α) (z : Fin 2 → α), (UpdateLidar (Prediction M dt s) z).P_.IsSymm) ∧
    (∀ (s : UKF α) (dt : α) (z : Fin 3 → α), (UpdateRadar (Prediction M dt s) z).P_.IsSymm) ∧
    (∀ (s : UKF α) (m : MeasurementPackage α), (ProcessMeasurement M s m).P_.IsSymm) ∧
    (∀ (x0 : Fin n_x → α) (P0 : Matrix (Fin n_x) (Fin n_x) α)
      (X0 : Matrix (Fin n_x) (Fin n_sig) α) (m : MeasurementPackage α)
      (ms : List (MeasurementPackage α)), (run M (new x0 P0 X0) (m :: ms)).P_.IsSymm) :=
  ⟨fun _ _ z => updateLidar_isSymm _ z (predictedCovariance_isSymm _ _ _ _),
    fun _ _ _ => predictedCovariance_isSymm _ _ _ _,
    fun s m => processMeasurement_isSymm M s m,
    fun _ _ _ m ms => run_isSymm M ms _ (processMeasurement_isSymm M _ m)⟩

/-! ### C13: positive semi-definiteness of the covariance -/

/-- C13 (counterexample): over the reals, take the initialized estimator with the
constructor's parameters, mean `(0, 0, 1, 0, 0)` (speed 1, heading 0), the covariance
`P = L * Lᵀ` for the lower-triangular `L` with rows `(14/15, 0, 0, 0, 0)`,
`(0, 14/15, 0, 0, 0)`, `(0, 0, 14/15, 0, 0)`, `(t, t, t, t, 0)`, `(0, 0, 0, 0, 1/10000)` and
`t = π / sqrt 3`, and stored time 0. `P` is symmetric positive-definite. A measurement at
`t = 1000000` µs gives `delta_t = 1 ≥ 0`. After the radar cycle the covariance entry
`P(0,0)`, the value of `v^T P v` at `v = (1, 0, 0, 0, 0)`, is `-47/3600 < 0`; after the
lidar cycle it is negative too. Neither covariance is positive semi-definite. -/
theorem cycle_not_posSemidef :
    let M : MathEnv ℝ := ⟨Real.sqrt, Real.sin, Real.cos, Real.pi, Real.pi_pos⟩
    let t : ℝ := Real.pi / Real.sqrt 3
    let P : Matrix (Fin n_x) (Fin n_x) ℝ :=
      !![196 / 225, 0, 0, 14 / 15 * t, 0;
        0, 196 / 225, 0, 14 / 15 * t, 0;
        0, 0, 196 / 225, 14 / 15 * t, 0;
        14 / 15 * t, 14 / 15 * t, 14 / 15 * t, 4 * (t * t), 0;
        0, 0, 0, 0, 1 / 100000000]
    let s : UKF ℝ :=
      { new (0 : Fin n_x → ℝ) 0 0 with
        is_initialized_ := true, x_ := ![0, 0, 1, 0, 0], P_ := P, time_us_ := 0 }
    let sR := ProcessMeasurement M s (.RADAR 1000000 ![1, 0, 0])
    let sL := ProcessMeasurement M s (.LASER 1000000 ![0, 0])
    s.is_initialized_ = true ∧ s.P_.PosDef ∧
    elapsed s (.RADAR 1000000 ![1, 0, 0]) = 1 ∧ elapsed s (.LASER 1000000 ![0, 0]) = 1 ∧
    sR = UpdateRadar (Prediction M 1 { s with time_us_ := 1000000 }) ![1, 0, 0] ∧
    sL = UpdateLidar (Prediction M 1 { s with time_us_ := 1000000 }) ![0, 0] ∧
    sR.P_ 0 0 = -47 / 3600 ∧ ¬ sR.P_.PosSemidef ∧
    sL.P_ 0 0 < 0 ∧ ¬ sL.P_.PosSemidef := by
  intro M t P s sR sL
  have hq0 : 0 < Real.sqrt 3 := Real.sqrt_pos.mpr (by norm_num)
  have ht : 0 < t := div_pos Real.pi_pos hq0
  have hqt : Real.sqrt 3 * t = Real.pi := by
    show Real.sqrt 3 * (Real.pi / Real.sqrt 3) = Real.pi
    field_simp
  have hdR : elapsed s (.RADAR 1000000 ![1, 0, 0]) = 1 := by
    simp only [elapsed, MeasurementPackage.timestamp_]
    norm_num [s]
  have hdL : elapsed s (.LASER 1000000 ![0, 0]) = 1 := by
    simp only [elapsed, MeasurementPackage.timestamp_]
    norm_num [s]
  have hR : sR = UpdateRadar (Prediction M 1 { s with time_us_ := 1000000 }) ![1, 0, 0] := by
    show ProcessMeasurement M s _ = _
    rw [processMeasurement_initialized M s _ rfl, hdR]
    rfl
  have hL : sL = UpdateLidar (Prediction M 1 { s with time_us_ := 1000000 }) ![0, 0] := by
    show ProcessMeasurement M s _ = _
    rw [processMeasurement_initialized M s _ rfl, hdL]
    rfl
  obtain ⟨hPD, -, -, p00, p01, p10, p11⟩ := heading_coupled_prediction M ⟨rfl, rfl, rfl, rfl⟩
    { s with time_us_ := 1000000 } t ht hqt rfl rfl rfl rfl rfl rfl
  have hR00 : sR.P_ 0 0 = -47 / 3600 := by
    rw [hR]
    exact p00
  have hlx : (Prediction M 1 { s with time_us_ := 1000000 }).std_laspx_ = 15 / 100 := rfl
  have hly : (Prediction M 1 { s with time_us_ := 1000000 }).std_laspy_ = 15 / 100 := rfl
  obtain ⟨-, -, u00, -⟩ := updateLidar_decoupled (Prediction M 1 { s with time_us_ := 1000000 })
    ![0, 0] p01 p10 (by rw [p00, hlx]; norm_num) (by rw [p11, hly]; norm_num)
  rw [p00, hlx] at u00
  have hL00 : sL.P_ 0 0 < 0 := by
    rw [hL, u00]
    norm_num
  refine ⟨rfl, hPD, hdR, hdL, hR, hL, hR00, ?_, hL00, ?_⟩
  · intro h
    have := posSemidef_diag_nonneg _ h 0
    rw [hR00] at this
    norm_num at this
  · intro h
    have := posSemidef_diag_nonneg _ h 0
    linarith

/-- C13 (amended): over the reals, for every initialized estimator with non-zero lidar noise
standard deviations and every measurement (lidar or radar, any elapsed time), if the
covariance left by `Prediction` is symmetric positive semi-definite, then the covariance
after the matching corrector, that is after `ProcessMeasurement`, is symmetric positive
semi-definite. -/
theorem cycle_posSemidef_of_predicted (M : MathEnv ℝ) (s : UKF ℝ) (m : MeasurementPackage ℝ)
    (hi : s.is_initialized_ = true) (hx : s.std_laspx_ ≠ 0) (hy : s.std_laspy_ ≠ 0)
    (hP : (Prediction M (elapsed s m) { s with time_us_ := m.timestamp_ }).P_.PosSemidef) :
    (ProcessMeasurement M s m).P_.PosSemidef := by
  rw [processMeasurement_initialized M s m hi]
  cases m with
  | LASER t z => exact updateLidar_posSemidef _ z hP hx hy
  | RADAR t z => exact hP

/-- Witness of `cycle_posSemidef_of_predicted`: the initialized estimator with the
constructor's parameters and the covariance `diag(0.0225, 0.0225, 1, 1, 1)` at stored time
0, and the lidar measurement `(1, 1)` with the same timestamp: `Prediction` leaves the
covariance as it is, and the covariance after the cycle is positive semi-definite. -/
theorem cycle_posSemidef_of_predicted_witness :
    (ProcessMeasurement (⟨Real.sqrt, Real.sin, Real.cos, Real.pi, Real.pi_pos⟩ : MathEnv ℝ)
      { new (0 : Fin n_x → ℝ) (Matrix.diagonal ![225 / 10000, 225 / 10000, 1, 1, 1]) 0 with
        is_initialized_ := true }
      (.LASER 0 ![1, 1])).P_.PosSemidef :=
  cycle_posSemidef_of_predicted
    (⟨Real.sqrt, Real.sin, Real.cos, Real.pi, Real.pi_pos⟩ : MathEnv ℝ)
    { new (0 : Fin n_x → ℝ) (Matrix.diagonal ![225 / 10000, 225 / 10000, 1, 1, 1]) 0 with
      is_initialized_ := true }
    (.LASER 0 ![1, 1]) rfl (by norm_num [new]) (by norm_num [new])
    (by
      have e : elapsed ({ new (0 : Fin n_x → ℝ)
          (Matrix.diagonal ![225 / 10000, 225 / 10000, 1, 1, 1]) 0 with
          is_initialized_ := true } : UKF ℝ) (.LASER 0 ![1, 1]) = 0 := by
        simp [elapsed, MeasurementPackage.timestamp_, new]
      rw [e, prediction_zero_dt_diagonal _ rfl rfl rfl rfl rfl]
      show (Matrix.diagonal ![225 / 10000, 225 / 10000, 1, 1, 1] :
        Matrix (Fin n_x) (Fin n_x) ℝ).PosSemidef
      rw [Matrix.posSemidef_diagonal_iff]
      intro i
      fin_cases i <;> norm_num)

/-! ### C14: the augmented sigma points -/

/-- C14: the 15 augmented sigma columns built in `Prediction` from the factor `L` are:
column 0 the augmented mean `(x, 0, 0)`, column `i + 1` the augmented mean plus
`sqrt(lambda + n_aug)` times column `i` of `L`, and column `i + 1 + n_aug` the augmented mean
minus that vector (`i = 0..6`). When the weights are those of the constructor,
`lambda + n_aug` is non-zero with `sqrt(lambda + n_aug)^2 = lambda + n_aug`, and
`L * Lᵀ` equals the augmented covariance (`P_` in the top-left block, `std_a_^2` and
`std_yawdd_^2` on the remaining diagonal, zero elsewhere), the weighted sum of the columns is
the augmented mean and the weighted sum of the outer products of their deviations from it
is the augmented covariance. -/
theorem sigma_points_reproduce [FloorRing α] (M : MathEnv α) (s : UKF α)
    (L : Matrix (Fin n_aug) (Fin n_aug) α)
    (hl : s.lambda_ + (n_aug : α) ≠ 0)
    (hw : s.weights_ = mkWeights n_aug s.lambda_)
    (hq : M.sqrt (s.lambda_ + (n_aug : α)) * M.sqrt (s.lambda_ + (n_aug : α)) =
      s.lambda_ + (n_aug : α))
    (hL : L * Lᵀ = augmentedCovariance s) :
    (∀ dt : α, (Prediction M dt s).Xsig_pred_ =
      predictSigmaPoints M dt (augmentedSigmaPoints M s (llt M (augmentedCovariance s)))) ∧
    (∀ r : Fin n_x, augmentedMean s ⟨r.val, lt_trans r.isLt (by decide)⟩ = s.x_ r) ∧
    augmentedMean s 5 = 0 ∧ augmentedMean s 6 = 0 ∧
    (∀ r, augmentedSigmaPoints M s L r 0 = augmentedMean s r) ∧
    (∀ (i : Fin n_aug) (r : Fin n_aug),
      augmentedSigmaPoints M s L r
          ⟨i.val + 1, by have := i.isLt; simp only [n_sig, n_aug] at *; omega⟩ =
        augmentedMean s r + M.sqrt (s.lambda_ + (n_aug : α)) * L r i) ∧
    (∀ (i : Fin n_aug) (r : Fin n_aug),
      augmentedSigmaPoints M s L r
          ⟨i.val + 1 + n_aug, by have := i.isLt; simp only [n_sig, n_aug] at *; omega⟩ =
        augmentedMean s r - M.sqrt (s.lambda_ + (n_aug : α)) * L r i) ∧
    (∀ r, ∑ i : Fin n_sig, s.weights_ i * augmentedSigmaPoints M s L r i = augmentedMean s r) ∧
    (∀ a b, ∑ i : Fin n_sig, s.weights_ i *
        (augmentedSigmaPoints M s L a i - augmentedMean s a) *
        (augmentedSigmaPoints M s L b i - augmentedMean s b) = augmentedCovariance s a b) ∧
    (∀ a b : Fin n_x, augmentedCovariance s ⟨a.val, lt_trans a.isLt (by decide)⟩
      ⟨b.val, lt_trans b.isLt (by decide)⟩ = s.P_ a b) ∧
    augmentedCovariance s 5 5 = s.std_a_ * s.std_a_ ∧
    augmentedCovariance s 6 6 = s.std_yawdd_ * s.std_yawdd_ ∧
    (∀ i j : Fin n_aug, i ≠ j → (5 ≤ i.val ∨ 5 ≤ j.val) → augmentedCovariance s i j = 0) := by
  refine ⟨fun _ => rfl, ?_, rfl, rfl, fun _ => rfl, ?_, ?_,
    sum_weights_augmented M s L s.lambda_ hl hw, ?_, ?_, rfl, rfl, ?_⟩
  · intro r
    simp [augmentedMean]
  · intro i r
    have hi : i.val < 7 := i.isLt
    have e : sigmaIndex (⟨i.val + 1, by simp only [n_sig, n_aug]; omega⟩ : Fin n_sig) = i := by
      apply Fin.ext
      show (i.val + 1 - 1) % 7 = i.val
      omega
    simp only [augmentedSigmaPoints, e]
    rw [if_neg (by simp), if_pos (by simp only [n_aug]; omega)]
  · intro i r
    have hi : i.val < 7 := i.isLt
    have e : sigmaIndex (⟨i.val + 1 + n_aug, by simp only [n_sig, n_aug]; omega⟩ : Fin n_sig) =
        i := by
      apply Fin.ext
      show (i.val + 1 + 7 - 1) % 7 = i.val
      omega
    simp only [augmentedSigmaPoints, e]
    rw [if_neg (by simp), if_neg (by simp only [n_aug]; omega)]
  · intro a b
    rw [sum_weights_outer M s L s.lambda_ hl hw hq a b, hL]
  · intro a b
    simp [augmentedCovariance]
  · intro i j hij h
    have hi : i.val < 7 := i.isLt
    have hj : j.val < 7 := j.isLt
    have hne : i.val ≠ j.val := fun h => hij (Fin.ext h)
    simp only [augmentedCovariance, n_x]
    rw [dif_neg (by omega), if_neg (by omega), if_neg (by omega)]

/-- Witness of `sigma_points_reproduce`: the constructed estimator over the reals with the
covariance `diag(0.0225, 0.0225, 1, 1, 1)` of the lidar initialization and the factor
`L = diag(0.15, 0.15, 1, 1, 1, 0.3, 0.3)`: the weighted outer products of the deviations
give the entry `0.0225` of the augmented covariance at `(0, 0)`. -/
theorem sigma_points_reproduce_witness :
    ∑ i : Fin n_sig, (new (0 : Fin n_x → ℝ)
        (Matrix.diagonal ![225 / 10000, 225 / 10000, 1, 1, 1]) 0).weights_ i *
      (augmentedSigmaPoints (⟨Real.sqrt, Real.sin, Real.cos, Real.pi, Real.pi_pos⟩ : MathEnv ℝ)
        (new (0 : Fin n_x → ℝ) (Matrix.diagonal ![225 / 10000, 225 / 10000, 1, 1, 1]) 0)
        (Matrix.diagonal ![15 / 100, 15 / 100, 1, 1, 1, 3 / 10, 3 / 10]) 0 i -
        augmentedMean (new (0 : Fin n_x → ℝ)
          (Matrix.diagonal ![225 / 10000, 225 / 10000, 1, 1, 1]) 0) 0) *
      (augmentedSigmaPoints (⟨Real.sqrt, Real.sin, Real.cos, Real.pi, Real.pi_pos⟩ : MathEnv ℝ)
        (new (0 : Fin n_x → ℝ) (Matrix.diagonal ![225 / 10000, 225 / 10000, 1, 1, 1]) 0)
        (Matrix.diagonal ![15 / 100, 15 / 100, 1, 1, 1, 3 / 10, 3 / 10]) 0 i -
        augmentedMean (new (0 : Fin n_x → ℝ)
          (Matrix.diagonal ![225 / 10000, 225 / 10000, 1, 1, 1]) 0) 0) =
      augmentedCovariance (new (0 : Fin n_x → ℝ)
        (Matrix.diagonal ![225 / 10000, 225 / 10000, 1, 1, 1]) 0) 0 0 :=
  (sigma_points_reproduce (⟨Real.sqrt, Real.sin, Real.cos, Real.pi, Real.pi_pos⟩ : MathEnv ℝ)
    (new (0 : Fin n_x → ℝ) (Matrix.diagonal ![225 / 10000, 225 / 10000, 1, 1, 1]) 0)
    (Matrix.diagonal ![15 / 100, 15 / 100, 1, 1, 1, 3 / 10, 3 / 10])
    (by simp [new, n_aug])
    rfl
    (Real.mul_self_sqrt (by simp [new, n_aug]))
    (by
      rw [scenarioB_augCov _ rfl rfl rfl, Matrix.diagonal_transpose, Matrix.diagonal_mul_diagonal]
      refine congrArg Matrix.diagonal (funext fun i => ?_)
      fin_cases i <;> simp [vec7_five, vec7_six, vec6_five] <;> norm_num)).2.2.2.2.2.2.2.2.1 0 0

/-! ### C15: propagation with zero elapsed time and zero noise -/

/-- C15: for every augmented sigma column whose two noise components are zero,
propagating it with `delta_t = 0` returns its five state components unchanged; both the
curved-path formula and the straight-line formula leave the position where it is. -/
theorem propagate_zero_dt_zero_noise (M : MathEnv α) (c : Fin n_aug → α)
    (h5 : c 5 = 0) (h6 : c 6 = 0) :
    predictSigmaPoint M 0 c = ![c 0, c 1, c 2, c 3, c 4] ∧
    curvedPath M (c 0) (c 1) (c 2) (c 3) (c 4) 0 = (c 0, c 1) ∧
    straightPath M (c 0) (c 1) (c 2) (c 3) 0 = (c 0, c 1) := by
  refine ⟨?_, ?_, ?_⟩
  · simp [predictSigmaPoint, h5, h6]
  · simp [curvedPath]
  · simp [straightPath]

/-- Witness of `propagate_zero_dt_zero_noise`: a column in the curved-path branch
(turn-rate 1) and a column in the straight-line branch (turn-rate 0), over the
rationals. -/
theorem propagate_zero_dt_zero_noise_witness :
    predictSigmaPoint (⟨id, id, id, 3, by norm_num⟩ : MathEnv ℚ) 0 ![1, 2, 3, 4, 1, 0, 0] =
      ![1, 2, 3, 4, 1] ∧
    predictSigmaPoint (⟨id, id, id, 3, by norm_num⟩ : MathEnv ℚ) 0 ![1, 2, 3, 4, 0, 0, 0] =
      ![1, 2, 3, 4, 0] :=
  ⟨(propagate_zero_dt_zero_noise (⟨id, id, id, 3, by norm_num⟩ : MathEnv ℚ)
      ![1, 2, 3, 4, 1, 0, 0] rfl rfl).1,
   (propagate_zero_dt_zero_noise (⟨id, id, id, 3, by norm_num⟩ : MathEnv ℚ)
      ![1, 2, 3, 4, 0, 0, 0] rfl rfl).1⟩

/-! ### C16: continuity of the propagator across the turn-rate threshold -/

/-- C16: over the reals, for every position `(px, py)`, speed `v`, heading `yaw` and
elapsed time `delta_t`, the position given by the curved-path branch,
`px + v/yawd*(sin(yaw + yawd*delta_t) - sin(yaw))` and
`py + v/yawd*(cos(yaw) - cos(yaw + yawd*delta_t))`, converges as `yawd` tends to `0` through
non-zero values to the position given by the straight-line branch,
`px + v*delta_t*cos(yaw)` and `py + v*delta_t*sin(yaw)`. The propagated column is the
position of the branch selected by `fabs(yawd) > 0.001` plus the same noise terms in both
branches, and its other three components are given by one expression for both branches. -/
theorem curved_tendsto_straight (p_x p_y v yaw delta_t : ℝ) :
    Filter.Tendsto
      (fun yawd => curvedPath (⟨Real.sqrt, Real.sin, Real.cos, Real.pi, Real.pi_pos⟩ : MathEnv ℝ)
        p_x p_y v yaw yawd delta_t)
      (nhdsWithin 0 {0}ᶜ)
      (nhds (straightPath (⟨Real.sqrt, Real.sin, Real.cos, Real.pi, Real.pi_pos⟩ : MathEnv ℝ)
        p_x p_y v yaw delta_t)) ∧
    ∀ c : Fin n_aug → ℝ,
      predictSigmaPoint (⟨Real.sqrt, Real.sin, Real.cos, Real.pi, Real.pi_pos⟩ : MathEnv ℝ)
        delta_t c =
      ![(if |c 4| > 1 / 1000 then
            (curvedPath (⟨Real.sqrt, Real.sin, Real.cos, Real.pi, Real.pi_pos⟩ : MathEnv ℝ)
              (c 0) (c 1) (c 2) (c 3) (c 4) delta_t).1
          else
            (straightPath (⟨Real.sqrt, Real.sin, Real.cos, Real.pi, Real.pi_pos⟩ : MathEnv ℝ)
              (c 0) (c 1) (c 2) (c 3) delta_t).1) +
          1 / 2 * c 5 * delta_t * delta_t * Real.cos (c 3),
        (if |c 4| > 1 / 1000 then
            (curvedPath (⟨Real.sqrt, Real.sin, Real.cos, Real.pi, Real.pi_pos⟩ : MathEnv ℝ)
              (c 0) (c 1) (c 2) (c 3) (c 4) delta_t).2
          else
            (straightPath (⟨Real.sqrt, Real.sin, Real.cos, Real.pi, Real.pi_pos⟩ : MathEnv ℝ)
              (c 0) (c 1) (c 2) (c 3) delta_t).2) +
          1 / 2 * c 5 * delta_t * delta_t * Real.sin (c 3),
        c 2 + c 5 * delta_t,
        c 3 + c 4 * delta_t + 1 / 2 * c 6 * delta_t * delta_t,
        c 4 + c 6 * delta_t] := by
  constructor
  · have hs : HasDerivAt (fun h : ℝ => Real.sin (yaw + h * delta_t))
        (Real.cos yaw * delta_t) 0 := by
      have h1 : HasDerivAt (fun h : ℝ => yaw + h * delta_t) delta_t 0 := by
        simpa using ((hasDerivAt_id (0 : ℝ)).mul_const delta_t).const_add yaw
      have h2 := (Real.hasDerivAt_sin (yaw + 0 * delta_t)).comp 0 h1
      simpa using h2
    have hc : HasDerivAt (fun h : ℝ => Real.cos (yaw + h * delta_t))
        (-Real.sin yaw * delta_t) 0 := by
      have h1 : HasDerivAt (fun h : ℝ => yaw + h * delta_t) delta_t 0 := by
        simpa using ((hasDerivAt_id (0 : ℝ)).mul_const delta_t).const_add yaw
      have h2 := (Real.hasDerivAt_cos (yaw + 0 * delta_t)).comp 0 h1
      simpa using h2
    have ts := hasDerivAt_iff_tendsto_slope_zero.mp hs
    have tc := hasDerivAt_iff_tendsto_slope_zero.mp hc
    simp only [zero_add, zero_mul, add_zero, smul_eq_mul] at ts tc
    have t1 := (ts.const_mul v).const_add p_x
    have t2 := ((tc.const_mul (-v))).const_add p_y
    refine Filter.Tendsto.prod_mk_nhds ?_ ?_
    · have e : p_x + v * delta_t * Real.cos yaw = p_x + v * (Real.cos yaw * delta_t) := by ring
      show Filter.Tendsto _ _ (nhds (p_x + v * delta_t * Real.cos yaw))
      rw [e]
      refine t1.congr (fun t => ?_)
      show _ = p_x + v / t * (Real.sin (yaw + t * delta_t) - Real.sin yaw)
      ring
    · have e : p_y + v * delta_t * Real.sin yaw = p_y + -v * (-Real.sin yaw * delta_t) := by
        ring
      show Filter.Tendsto _ _ (nhds (p_y + v * delta_t * Real.sin yaw))
      rw [e]
      refine t2.congr (fun t => ?_)
      show _ = p_y + v / t * (Real.cos yaw - Real.cos (yaw + t * delta_t))
      ring
  · intro c
    simp only [predictSigmaPoint, curvedPath, straightPath]

/-! ### C17: the flags `use_laser_` and `use_radar_` -/

/-- C17 (the code at the failing input): the estimator is constructed, `use_laser_` is set
to `false`, and it is initialized by the lidar measurement `(1, 1)` at `t = 0`; the flag
has no effect on that call. The lidar measurement `(1.1, 1.05)` at `t = 100000` µs is then
not ignored: `ProcessMeasurement` runs `UpdateLidar` on the predicted state, which moves the
position from `px = 1` to a value above `1` and lowers `P(0,0)`; the mean and covariance
are the ones obtained with `use_laser_ = true`. For every state, measurement and pair of
flag values, `ProcessMeasurement` computes the same state as with any other flag
values. -/
theorem use_laser_false_not_ignored :
    let M : MathEnv ℝ := ⟨Real.sqrt, Real.sin, Real.cos, Real.pi, Real.pi_pos⟩
    let s0 : UKF ℝ := { new (0 : Fin n_x → ℝ) 0 0 with use_laser_ := false }
    let sA := ProcessMeasurement M s0 (.LASER 0 ![1, 1])
    let sP := Prediction M (1 / 10) { sA with time_us_ := 100000 }
    let sB := ProcessMeasurement M sA (.LASER 100000 ![11 / 10, 105 / 100])
    let sB1 := ProcessMeasurement M (ProcessMeasurement M (new (0 : Fin n_x → ℝ) 0 0)
      (.LASER 0 ![1, 1])) (.LASER 100000 ![11 / 10, 105 / 100])
    sA = { ProcessMeasurement M (new (0 : Fin n_x → ℝ) 0 0) (.LASER 0 ![1, 1]) with
      use_laser_ := false } ∧
    sA.is_initialized_ = true ∧ sA.use_laser_ = false ∧
    sB = UpdateLidar sP ![11 / 10, 105 / 100] ∧
    sP.x_ 0 = 1 ∧ 1 < sB.x_ 0 ∧ sB.P_ 0 0 < sP.P_ 0 0 ∧
    sB.x_ = sB1.x_ ∧ sB.P_ = sB1.P_ ∧
    (∀ (s : UKF ℝ) (m : MeasurementPackage ℝ) (b1 b2 : Bool),
      ProcessMeasurement M { s with use_laser_ := b1, use_radar_ := b2 } m =
        { ProcessMeasurement M s m with use_laser_ := b1, use_radar_ := b2 }) := by
  intro M s0 sA sP sB sB1
  have hA0 : sA = { ProcessMeasurement M (new (0 : Fin n_x → ℝ) 0 0) (.LASER 0 ![1, 1]) with
      use_laser_ := false } :=
    processMeasurement_flags M (new (0 : Fin n_x → ℝ) 0 0) (.LASER 0 ![1, 1]) false true
  have hA : sA = { new (0 : Fin n_x → ℝ) 0 0 with
      use_laser_ := false
      time_us_ := 0
      x_ := ![1, 1, 0, 0, 0]
      P_ := Matrix.diagonal ![225 / 10000, 225 / 10000, 1, 1, 1]
      is_initialized_ := true } := by
    rw [hA0, scenarioA_state]
  have hi : sA.is_initialized_ = true := by rw [hA]
  have hdt : elapsed sA (.LASER 100000 ![11 / 10, 105 / 100]) = 1 / 10 := by
    rw [hA]
    simp only [elapsed, MeasurementPackage.timestamp_]
    norm_num
  have hB : sB = UpdateLidar sP ![11 / 10, 105 / 100] := by
    show ProcessMeasurement M sA _ = _
    rw [processMeasurement_initialized M sA _ hi, hdt]
    rfl
  have hB1 : sB = { sB1 with use_laser_ := false } := by
    show ProcessMeasurement M sA _ = _
    rw [hA0]
    exact processMeasurement_flags M _ _ false true
  obtain ⟨p0, -, p00, p01, p10, p11⟩ := scenarioB_prediction M ⟨rfl, rfl, rfl, rfl⟩
    { sA with time_us_ := 100000 }
    (by rw [hA]) (by rw [hA]) (by rw [hA]; rfl) (by rw [hA]; rfl) (by rw [hA]; rfl)
    (by rw [hA]; rfl)
  have hlx : sP.std_laspx_ = 15 / 100 := by
    show sA.std_laspx_ = _
    rw [hA]
    rfl
  have hly : sP.std_laspy_ = 15 / 100 := by
    show sA.std_laspy_ = _
    rw [hA]
    rfl
  obtain ⟨u0, -, u00, -⟩ := updateLidar_decoupled sP ![11 / 10, 105 / 100] p01 p10
    (by rw [p00, hlx]; norm_num) (by rw [p11, hly]; norm_num)
  rw [p0, p00, hlx] at u0
  rw [p00, hlx] at u00
  refine ⟨hA0, hi, by rw [hA], hB, p0, ?_, ?_, by rw [hB1], by rw [hB1],
    fun s m b1 b2 => processMeasurement_flags M s m b1 b2⟩
  · rw [hB, u0]; norm_num
  · rw [hB, u00, p00]; norm_num

/-! ### C18: linearly propagated components of the predicted mean -/

/-- C18: when the weights are those of the constructor (`weight[0] = lambda/(lambda+n_aug)`,
the others `1/(2(lambda+n_aug))`, `lambda + n_aug ≠ 0`), then for every mean, every
covariance, whatever matrix `L` the factorization returns, and every `delta_t`, the mean
after `Prediction` has the previous speed, the previous turn-rate, and the heading
`previous heading + previous turn-rate * delta_t`, not wrapped. -/
theorem predicted_mean_linear_components [FloorRing α] (M : MathEnv α) (dt : α) (s : UKF α)
    (l : α) (hl : l + (n_aug : α) ≠ 0) (hw : s.weights_ = mkWeights n_aug l) :
    (Prediction M dt s).x_ 2 = s.x_ 2 ∧
    (Prediction M dt s).x_ 3 = s.x_ 3 + s.x_ 4 * dt ∧
    (Prediction M dt s).x_ 4 = s.x_ 4 :=
  ⟨(predictedMean_linear M dt s l hl hw).1, predictedMean_heading M dt s l hl hw,
    (predictedMean_linear M dt s l hl hw).2⟩

/-- Witness of `predicted_mean_linear_components`: the constructed estimator with mean
`(0, 0, 5, 1, 2)` over the rationals and `delta_t = 3`: the predicted heading is
`1 + 2 * 3`. -/
theorem predicted_mean_linear_components_witness :
    (Prediction (⟨id, id, id, 3, by norm_num⟩ : MathEnv ℚ) 3
      (new ![0, 0, 5, 1, 2] 1 0)).x_ 3 = 1 + 2 * 3 :=
  (predicted_mean_linear_components (⟨id, id, id, 3, by norm_num⟩ : MathEnv ℚ) 3
    (new ![0, 0, 5, 1, 2] 1 0) (3 - (n_aug : ℚ)) (by norm_num) rfl).2.1

/-! ### C19: Prediction with a duplicate timestamp -/

/-- C19: over the reals, with `delta_t = 0` (the elapsed time computed for a measurement
whose timestamp equals the stored one), for every mean and every symmetric
positive-definite covariance `P_` such that the factor `L` of the augmented covariance
satisfies `sqrt(3) * |L(3,i)| ≤ π` for every column `i`, `Prediction` leaves both the mean
and the covariance unchanged. The estimator has the constructor's `lambda_ = 3 - n_aug`
and weights, and non-zero process noise standard deviations. -/
theorem prediction_duplicate_timestamp (s : UKF ℝ) (hP : s.P_.PosDef)
    (ha : s.std_a_ ≠ 0) (hy : s.std_yawdd_ ≠ 0)
    (hl : s.lambda_ = 3 - (n_aug : ℝ)) (hw : s.weights_ = mkWeights n_aug s.lambda_)
    (hb : ∀ i, Real.sqrt 3 *
      |llt (⟨Real.sqrt, Real.sin, Real.cos, Real.pi, Real.pi_pos⟩ : MathEnv ℝ)
        (augmentedCovariance s) 3 i| ≤ Real.pi) :
    (∀ m : MeasurementPackage ℝ, m.timestamp_ = s.time_us_ → elapsed s m = 0) ∧
    (Prediction (⟨Real.sqrt, Real.sin, Real.cos, Real.pi, Real.pi_pos⟩ : MathEnv ℝ) 0 s).x_ =
      s.x_ ∧
    (Prediction (⟨Real.sqrt, Real.sin, Real.cos, Real.pi, Real.pi_pos⟩ : MathEnv ℝ) 0 s).P_ =
      s.P_ := by
  have e3 : s.lambda_ + (n_aug : ℝ) = 3 := by
    rw [hl]
    ring
  refine ⟨fun m hm => by simp [elapsed, hm], ?_⟩
  refine prediction_zero_dt (⟨Real.sqrt, Real.sin, Real.cos, Real.pi, Real.pi_pos⟩ : MathEnv ℝ)
    s s.lambda_ (by rw [e3]; norm_num) hw ?_ (Real.sqrt_nonneg _)
    (llt_augmentedCovariance _ ⟨rfl, rfl, rfl, rfl⟩ s hP ha hy) ?_
  · exact Real.mul_self_sqrt (by rw [e3]; norm_num)
  · intro i
    show Real.sqrt (s.lambda_ + (n_aug : ℝ)) * _ ≤ Real.pi
    rw [e3]
    exact hb i

/-- Witness of `prediction_duplicate_timestamp`: the constructed estimator with the
covariance `diag(0.0225, 0.0225, 1, 1, 1)` of the lidar initialization; the factor is
`diag(0.15, 0.15, 1, 1, 1, 0.3, 0.3)`, whose row 3 has the single non-zero entry `1`. -/
theorem prediction_duplicate_timestamp_witness :
    (Prediction (⟨Real.sqrt, Real.sin, Real.cos, Real.pi, Real.pi_pos⟩ : MathEnv ℝ) 0
      (new (0 : Fin n_x → ℝ) (Matrix.diagonal ![225 / 10000, 225 / 10000, 1, 1, 1]) 0)).P_ =
      Matrix.diagonal ![225 / 10000, 225 / 10000, 1, 1, 1] :=
  (prediction_duplicate_timestamp
    (new (0 : Fin n_x → ℝ) (Matrix.diagonal ![225 / 10000, 225 / 10000, 1, 1, 1]) 0)
    (by
      show (Matrix.diagonal ![225 / 10000, 225 / 10000, 1, 1, 1] :
        Matrix (Fin n_x) (Fin n_x) ℝ).PosDef
      rw [Matrix.posDef_diagonal_iff]
      intro i
      fin_cases i <;> norm_num)
    (by norm_num [new]) (by norm_num [new]) rfl rfl
    (by
      intro i
      rw [scenarioB_augCov _ rfl rfl rfl, scenarioB_llt _ ⟨rfl, rfl, rfl, rfl⟩]
      have h3 : Real.sqrt 3 ≤ Real.pi := by
        rw [Real.sqrt_le_iff]
        exact ⟨le_of_lt Real.pi_pos, by nlinarith [Real.pi_gt_three]⟩
      by_cases h : (3 : Fin n_aug) = i
      · subst h
        rw [Matrix.diagonal_apply_eq]
        simpa using h3
      · rw [Matrix.diagonal_apply_ne _ h]
        simpa using le_of_lt Real.pi_pos)).2.2

/-! ### C20: termination of the angle normalization -/

/-- C20: both normalization loops of `Prediction` end after finitely many iterations:
for every heading difference `d` there are iteration counts `n₁` and `n₂` such that the
first loop ends within `n₁` subtractions of `2π` with a value `d₁`, the second loop,
started from `d₁`, ends within `n₂` additions of `2π`, and the value it leaves, the
normalized angle, lies in the closed interval `[-π, π]`. -/
theorem normalizeAngle_terminates [FloorRing α] (M : MathEnv α) (d : α) :
    ∃ (n₁ n₂ : ℕ) (d₁ : α),
      subLoopFuel M n₁ d = some d₁ ∧
      addLoopFuel M n₂ d₁ = some (normalizeAngle M d) ∧
      -M.M_PI ≤ normalizeAngle M d ∧ normalizeAngle M d ≤ M.M_PI := by
  obtain ⟨s1, -, -, -, ⟨n₁, h₁⟩⟩ := subLoop_spec M d
  obtain ⟨a1, a2, -, -, ⟨n₂, h₂⟩⟩ := addLoop_spec M (subLoop M d)
  exact ⟨n₁, n₂, subLoop M d, h₁, h₂, a1, a2 s1⟩

end UKFilter
